import Mathlib

/-!
# Verification of the Selective-Repeat protocol core (`src/sr.c`)

This file gives a shallow embedding of the sender (entity A) and receiver
(entity B) of the Selective-Repeat implementation in `src/sr.c`, and proves
the specification claims about it.

Modelling conventions:
* C `int` fields are modelled as `Int`; the C `%` operator (truncating
  remainder) is `Int.tmod`.
* A packet payload / application message (`char[20]` in C) is a `List Int`
  of the byte values.
* Calls to the emulator (`tolayer3`, `tolayer5`, `starttimer`, `stoptimer`)
  and statistics counters (`window_full`, `packets_resent`, `new_ACKs`,
  `total_ACKs_received`, `packets_received`) are modelled as emitted
  actions; handlers return the new state together with the action list.
  Whether A's timer is running is additionally tracked in the ghost field
  `timerOn` (set exactly on `starttimer` / `stoptimer` calls; a timer
  interrupt fires only when it is `true` and clears it at entry).
-/

/-- `WINDOWSIZE` from `sr.c`. -/
def WINDOWSIZE : Int := 6

/-- `SEQSPACE` from `sr.c`. -/
def SEQSPACE : Int := 12

/-- `NOTINUSE` from `sr.c`. -/
def NOTINUSE : Int := -1

/-- `struct pkt` from `emulator.h`: sequence number, ack number, checksum and
a 20-byte payload (byte values as integers). -/
structure Pkt where
  seqnum : Int
  acknum : Int
  checksum : Int
  payload : List Int
  deriving Repr, DecidableEq

/-- `ComputeChecksum` from `sr.c`: seqnum + acknum + sum of the payload
bytes. -/
def ComputeChecksum (packet : Pkt) : Int :=
  packet.seqnum + packet.acknum + packet.payload.sum

/-- `IsCorrupted` from `sr.c`: the stored checksum disagrees with the
recomputed one. -/
def IsCorrupted (packet : Pkt) : Bool :=
  !(packet.checksum == ComputeChecksum packet)

/-- Build a packet the way both entities do in `sr.c`: fill the fields, then
compute the checksum last over the finished fields. -/
def mkPkt (seqnum acknum : Int) (payload : List Int) : Pkt :=
  let p : Pkt := { seqnum := seqnum, acknum := acknum, checksum := 0, payload := payload }
  { p with checksum := ComputeChecksum p }

/-- Default packet (used only as the `getD` default; C never reads an
out-of-bounds slot in the modelled states). -/
def dPkt : Pkt := { seqnum := 0, acknum := 0, checksum := 0, payload := [] }

/-! ## Sender (A) state -/

/-- One slot of `A_buffer`: the buffered packet and its `acked` flag. -/
structure BufEntry where
  packet : Pkt
  acked : Bool
  deriving Repr, DecidableEq

/-- Default `A_buffer` slot. -/
def dA : BufEntry := { packet := dPkt, acked := false }

/-- The sender's mutable state: `A_buffer`, `windowfirst`, `windowlast`,
`windowcount`, `A_nextseqnum`, `timer_seq`, plus the ghost flag `timerOn`
recording whether A's retransmission timer is currently running. -/
@[ext]
structure AState where
  buffer : List BufEntry
  windowfirst : Int
  windowlast : Int
  windowcount : Nat
  nextseqnum : Int
  timer_seq : Int
  timerOn : Bool
  deriving Repr, DecidableEq

/-- Emulator calls and counter increments performed by sender handlers. -/
inductive AAction where
  | toLayer3 (p : Pkt)
  | startTimer
  | stopTimer
  | incWindowFull
  | incResent
  | incNewAcks
  | incAcksReceived
  deriving Repr, DecidableEq

/-- The ring-buffer index `(windowfirst + i) % WINDOWSIZE` used by the C
loops, as a list index. -/
def posAt (wf : Int) (i : Nat) : Nat :=
  ((wf + Int.ofNat i).tmod 6).toNat

/-- The C pattern `for (i = 0; i < wc; i++) { pos = (wf+i)%WINDOWSIZE;
if p(buf[pos]) break; }`: index of the first window slot (in window order,
starting at `start`) whose entry satisfies `p`, searching `n` slots. -/
def firstIdxAux (buf : List BufEntry) (wf : Int) (p : BufEntry → Bool) :
    Nat → Nat → Option Nat
  | _, 0 => none
  | i, Nat.succ n =>
    if p (buf.getD (posAt wf i) dA) then some i
    else firstIdxAux buf wf p (i + 1) n

/-- First index `i < wc` (in window order from `windowfirst`) whose buffer
entry satisfies `p`, if any. -/
def firstIdx (buf : List BufEntry) (wf : Int) (wc : Nat) (p : BufEntry → Bool) :
    Option Nat :=
  firstIdxAux buf wf p 0 wc

/-- The window-sliding loop of `A_input`:
`while (windowcount > 0 && A_buffer[windowfirst].acked) { windowfirst =
(windowfirst+1) % WINDOWSIZE; windowcount--; }`.  Returns the new
`windowfirst` and `windowcount`. -/
def slideW (buf : List BufEntry) : Nat → Int → Int × Nat
  | 0, wf => (wf, 0)
  | Nat.succ n, wf =>
    if (buf.getD wf.toNat dA).acked then slideW buf n ((wf + 1).tmod 6)
    else (wf, Nat.succ n)

/-- `A_output` from `sr.c` (lines 71–116).  If the window is not full, build
the next packet, store it unacknowledged at `(windowlast+1) % WINDOWSIZE`,
send it, start the timer if the window was empty, and advance `A_nextseqnum`;
otherwise reject the message, only bumping `window_full`. -/
def A_output (s : AState) (message : List Int) : AState × List AAction :=
  if s.windowcount < 6 then
    let sendpkt := mkPkt s.nextseqnum NOTINUSE message
    let wlast := (s.windowlast + 1).tmod 6
    let buf := s.buffer.set wlast.toNat { packet := sendpkt, acked := false }
    let wc := s.windowcount + 1
    let st :=
      if wc = 1 then (true, sendpkt.seqnum, [AAction.toLayer3 sendpkt, AAction.startTimer])
      else (s.timerOn, s.timer_seq, [AAction.toLayer3 sendpkt])
    ({ buffer := buf, windowfirst := s.windowfirst, windowlast := wlast,
       windowcount := wc, nextseqnum := (s.nextseqnum + 1).tmod 12,
       timer_seq := st.2.1, timerOn := st.1 }, st.2.2)
  else
    (s, [AAction.incWindowFull])

/-- `A_input` from `sr.c` (lines 121–184).  On an uncorrupted ACK: mark the
first not-yet-acknowledged window packet whose seqnum equals the acknum (if
any); if the acknum equals `timer_seq`, stop the timer and restart it for the
next unacknowledged packet (if any), rebinding `timer_seq`; then slide the
window past acknowledged packets, and stop the timer if the window emptied.
A corrupted ACK changes nothing. -/
def A_input (s : AState) (packet : Pkt) : AState × List AAction :=
  if IsCorrupted packet then (s, [])
  else
    let mi := firstIdx s.buffer s.windowfirst s.windowcount
      (fun e => e.packet.seqnum == packet.acknum && !e.acked)
    let buf1 :=
      match mi with
      | some i =>
        s.buffer.set (posAt s.windowfirst i)
          { packet := (s.buffer.getD (posAt s.windowfirst i) dA).packet, acked := true }
      | none => s.buffer
    let acts1 :=
      match mi with
      | some _ => [AAction.incAcksReceived, AAction.incNewAcks]
      | none => [AAction.incAcksReceived]
    let tt :=
      if packet.acknum == s.timer_seq then
        match firstIdx buf1 s.windowfirst s.windowcount (fun e => !e.acked) with
        | some j =>
          (true, (buf1.getD (posAt s.windowfirst j) dA).packet.seqnum,
            [AAction.stopTimer, AAction.startTimer])
        | none => (false, s.timer_seq, [AAction.stopTimer])
      else (s.timerOn, s.timer_seq, ([] : List AAction))
    let sl := slideW buf1 s.windowcount s.windowfirst
    let final :=
      if sl.2 = 0 then (false, [AAction.stopTimer]) else (tt.1, ([] : List AAction))
    ({ buffer := buf1, windowfirst := sl.1, windowlast := s.windowlast,
       windowcount := sl.2, nextseqnum := s.nextseqnum,
       timer_seq := tt.2.1, timerOn := final.1 },
     acts1 ++ tt.2.2 ++ final.2)

/-- `A_timerinterrupt` from `sr.c` (lines 187–229).  Resend the packet bound
to the timer if it is still in the window unacknowledged, restarting the
timer; otherwise rebind and restart the timer to the first unacknowledged
window packet, if any.  (Invoked by the emulator only when the timer fires,
i.e. on a state whose `timerOn` has just become `false`.) -/
def A_timerinterrupt (s : AState) : AState × List AAction :=
  match firstIdx s.buffer s.windowfirst s.windowcount
      (fun e => e.packet.seqnum == s.timer_seq && !e.acked) with
  | some i =>
    ({ s with timerOn := true },
      [AAction.toLayer3 (s.buffer.getD (posAt s.windowfirst i) dA).packet,
        AAction.incResent, AAction.startTimer])
  | none =>
    match firstIdx s.buffer s.windowfirst s.windowcount (fun e => !e.acked) with
    | some j =>
      ({ s with
          timer_seq := (s.buffer.getD (posAt s.windowfirst j) dA).packet.seqnum,
          timerOn := true },
        [AAction.startTimer])
    | none => (s, [])

/-- `A_init` from `sr.c` (lines 235–251): reset `A_nextseqnum`,
`windowfirst`, `windowlast`, `windowcount` and `timer_seq`, and clear every
`acked` flag.  Note: it performs no emulator call — in particular no
`stoptimer` — so the ghost `timerOn` is untouched. -/
def A_init (s : AState) : AState :=
  { s with nextseqnum := 0, windowfirst := 0, windowlast := -1,
           windowcount := 0, timer_seq := -1,
           buffer := s.buffer.map fun e => { packet := e.packet, acked := false } }

/-- A's state at simulation start (zero-initialised globals, then
`A_init`). -/
def initA : AState :=
  { buffer := List.replicate 6 dA, windowfirst := 0, windowlast := -1,
    windowcount := 0, nextseqnum := 0, timer_seq := -1, timerOn := false }

/-! ## Receiver (B) state -/

/-- One slot of `B_buffer`: the stored packet and its `received` flag. -/
structure BEntry where
  packet : Pkt
  received : Bool
  deriving Repr, DecidableEq

/-- Default `B_buffer` slot. -/
def dB : BEntry := { packet := dPkt, received := false }

/-- The receiver's mutable state: `B_buffer`, `B_windowfirst`,
`B_nextseqnum`. -/
structure BState where
  buffer : List BEntry
  windowfirst : Int
  nextseqnum : Int
  deriving Repr, DecidableEq

/-- Emulator calls and counter increments performed by `B_input`. -/
inductive BAction where
  | toLayer3 (p : Pkt)
  | toLayer5 (payload : List Int)
  | incDelivered
  deriving Repr, DecidableEq

/-- The in-order delivery loop of `B_input`:
`while (B_buffer[0].received) { tolayer5(...); packets_received++;` shift the
buffer left one slot, clear the `received` flag of the last slot, advance
`B_windowfirst` `}`.  Each iteration removes one `received` slot and appends
a non-`received` one, so `WINDOWSIZE` iterations always suffice; the fuel
argument is only a termination bound. -/
def deliverLoop : Nat → List BEntry → Int → List BEntry × Int × List BAction
  | 0, buf, wf => (buf, wf, [])
  | Nat.succ n, buf, wf =>
    if (buf.getD 0 dB).received then
      let pay := (buf.getD 0 dB).packet.payload
      let buf1 := buf.tail ++ [{ packet := (buf.getD 5 dB).packet, received := false }]
      let r := deliverLoop n buf1 ((wf + 1).tmod 12)
      (r.1, r.2.1, BAction.toLayer5 pay :: BAction.incDelivered :: r.2.2)
    else (buf, wf, [])

/-- `B_input` from `sr.c` (lines 267–326).  Drop a corrupted packet
silently.  Otherwise, if `offset = (seqnum - B_windowfirst + SEQSPACE) %
SEQSPACE` is inside the window, store the packet at that offset and deliver
the maximal received prefix in order; in all uncorrupted cases send back an
ACK whose `acknum` is the received `seqnum` (with B's alternating
`B_nextseqnum` and an all-'0' payload). -/
def B_input (s : BState) (packet : Pkt) : BState × List BAction :=
  if IsCorrupted packet then (s, [])
  else
    let seqnum := packet.seqnum
    let offset := (seqnum - s.windowfirst + 12).tmod 12
    let d :=
      if offset < 6 then
        deliverLoop 6 (s.buffer.set offset.toNat { packet := packet, received := true })
          s.windowfirst
      else (s.buffer, s.windowfirst, [])
    let sendpkt := mkPkt s.nextseqnum seqnum (List.replicate 20 48)
    ({ buffer := d.1, windowfirst := d.2.1, nextseqnum := (s.nextseqnum + 1).tmod 2 },
      d.2.2 ++ [BAction.toLayer3 sendpkt])

/-- `B_init` from `sr.c` (lines 330–342): `B_windowfirst = 0`,
`B_nextseqnum = 1`, every `received` flag cleared. -/
def initB : BState :=
  { buffer := List.replicate 6 dB, windowfirst := 0, nextseqnum := 1 }

/-! ## Whole-system models

Two models of the environment around the two entities.

`LEv`/`lstep` is the *liberal* model, the event space claimed by the spec's
end-to-end property: an arrival at either entity may be **any** packet the
other entity previously handed to the channel (identified by its index in
the send history) — so arrivals may be reordered, duplicated arbitrarily
often, lost (simply never delivered), or replaced by a corrupted packet; a
timeout may fire whenever A's timer is running.

`FEv`/`fstep` is the *FIFO* model matching the channel contract documented
in `sr.c` ("packets will be delivered in the order in which they were sent
(although some can be lost)"): each direction is a FIFO queue, and every
queue event consumes the oldest in-flight packet, delivering it intact,
losing it, or delivering a corrupted version of it. -/

/-- The packets a list of sender actions hands to layer 3. -/
def outPkts (acts : List AAction) : List Pkt :=
  acts.filterMap fun a => match a with | AAction.toLayer3 p => some p | _ => none

/-- The packets a list of receiver actions hands to layer 3 (the ACKs). -/
def ackPkts (acts : List BAction) : List Pkt :=
  acts.filterMap fun a => match a with | BAction.toLayer3 p => some p | _ => none

/-- The payloads a list of receiver actions delivers to layer 5. -/
def payloadsOf (acts : List BAction) : List (List Int) :=
  acts.filterMap fun a => match a with | BAction.toLayer5 m => some m | _ => none

/-- Liberal-model system state: both entity states, the full send histories
of both entities, and the ghost observation lists `submitted` (messages
accepted by `A_output`) and `delivered` (payloads handed to B's application
layer). -/
structure LSys where
  A : AState
  B : BState
  sentA : List Pkt
  sentB : List Pkt
  submitted : List (List Int)
  delivered : List (List Int)
  deriving Repr, DecidableEq

/-- Liberal-model events (see above). -/
inductive LEv where
  | submit (m : List Int)
  | arriveB (k : Nat)
  | arriveA (k : Nat)
  | corruptB (p : Pkt)
  | corruptA (p : Pkt)
  | timeoutA
  deriving Repr, DecidableEq

/-- Liberal-model step function. -/
def lstep (s : LSys) : LEv → LSys
  | LEv.submit m =>
    let r := A_output s.A m
    { s with A := r.1, sentA := s.sentA ++ outPkts r.2,
             submitted := s.submitted ++ if s.A.windowcount < 6 then [m] else [] }
  | LEv.arriveB k =>
    if hk : k < s.sentA.length then
      let r := B_input s.B (s.sentA.get ⟨k, hk⟩)
      { s with B := r.1, sentB := s.sentB ++ ackPkts r.2,
               delivered := s.delivered ++ payloadsOf r.2 }
    else s
  | LEv.arriveA k =>
    if hk : k < s.sentB.length then
      let r := A_input s.A (s.sentB.get ⟨k, hk⟩)
      { s with A := r.1, sentA := s.sentA ++ outPkts r.2 }
    else s
  | LEv.corruptB p =>
    if IsCorrupted p then
      let r := B_input s.B p
      { s with B := r.1, sentB := s.sentB ++ ackPkts r.2,
               delivered := s.delivered ++ payloadsOf r.2 }
    else s
  | LEv.corruptA p =>
    if IsCorrupted p then
      let r := A_input s.A p
      { s with A := r.1, sentA := s.sentA ++ outPkts r.2 }
    else s
  | LEv.timeoutA =>
    if s.A.timerOn then
      let r := A_timerinterrupt { s.A with timerOn := false }
      { s with A := r.1, sentA := s.sentA ++ outPkts r.2 }
    else s

/-- Initial liberal-model state (`A_init` and `B_init` have run). -/
def initL : LSys :=
  { A := initA, B := initB, sentA := [], sentB := [], submitted := [], delivered := [] }

/-- Run the liberal model over an event trace. -/
def runL (evs : List LEv) : LSys := evs.foldl lstep initL

/-- FIFO-model system state: entity states, one in-flight FIFO queue per
direction, and the `submitted`/`delivered` observation lists. -/
structure FSys where
  A : AState
  B : BState
  chanAB : List Pkt
  chanBA : List Pkt
  submitted : List (List Int)
  delivered : List (List Int)
  deriving Repr, DecidableEq

/-- FIFO-model events: application submission; delivery, loss, or corrupted
delivery of the oldest in-flight packet of either direction; sender
timeout. -/
inductive FEv where
  | submit (m : List Int)
  | dlvAB
  | dropAB
  | corrAB (p : Pkt)
  | dlvBA
  | dropBA
  | corrBA (p : Pkt)
  | timeoutA
  deriving Repr, DecidableEq

/-- FIFO-model step function. -/
def fstep (s : FSys) : FEv → FSys
  | FEv.submit m =>
    let r := A_output s.A m
    { s with A := r.1, chanAB := s.chanAB ++ outPkts r.2,
             submitted := s.submitted ++ if s.A.windowcount < 6 then [m] else [] }
  | FEv.dlvAB =>
    match s.chanAB with
    | [] => s
    | p :: rest =>
      let r := B_input s.B p
      { s with B := r.1, chanAB := rest, chanBA := s.chanBA ++ ackPkts r.2,
               delivered := s.delivered ++ payloadsOf r.2 }
  | FEv.dropAB => { s with chanAB := s.chanAB.tail }
  | FEv.corrAB q =>
    match s.chanAB with
    | [] => s
    | _ :: rest =>
      if IsCorrupted q then
        let r := B_input s.B q
        { s with B := r.1, chanAB := rest, chanBA := s.chanBA ++ ackPkts r.2,
                 delivered := s.delivered ++ payloadsOf r.2 }
      else s
  | FEv.dlvBA =>
    match s.chanBA with
    | [] => s
    | p :: rest =>
      let r := A_input s.A p
      { s with A := r.1, chanBA := rest, chanAB := s.chanAB ++ outPkts r.2 }
  | FEv.dropBA => { s with chanBA := s.chanBA.tail }
  | FEv.corrBA q =>
    match s.chanBA with
    | [] => s
    | _ :: rest =>
      if IsCorrupted q then
        let r := A_input s.A q
        { s with A := r.1, chanBA := rest, chanAB := s.chanAB ++ outPkts r.2 }
      else s
  | FEv.timeoutA =>
    if s.A.timerOn then
      let r := A_timerinterrupt { s.A with timerOn := false }
      { s with A := r.1, chanAB := s.chanAB ++ outPkts r.2 }
    else s

/-- Initial FIFO-model state. -/
def initF : FSys :=
  { A := initA, B := initB, chanAB := [], chanBA := [],
    submitted := [], delivered := [] }

/-- Run the FIFO model over an event trace. -/
def runF (evs : List FEv) : FSys := evs.foldl fstep initF

/-! ## Counterexample trace for C1 (claim as stated)

Twelve messages are submitted and delivered normally, but one *stale
duplicate* of packet 0 also arrives after the receiver window has advanced
7 positions.  Its offset `(0 - 7 + 12) % 12 = 5` puts it back inside the
receive window, so `B_input` re-buffers it and eventually re-delivers
payload 0 — duplicate delivery. -/

/-- The `j`-th test message: twenty bytes of value `j`. -/
def cexMsg (j : Int) : List Int := List.replicate 20 j

/-- Liberal-model trace exhibiting the duplicate delivery (all arrivals are
genuine copies of sent packets; `arriveB 0` occurs twice). -/
def cexTrace : List LEv :=
  [LEv.submit (cexMsg 0), LEv.submit (cexMsg 1), LEv.submit (cexMsg 2),
   LEv.submit (cexMsg 3), LEv.submit (cexMsg 4), LEv.submit (cexMsg 5),
   LEv.arriveB 0, LEv.arriveB 1, LEv.arriveB 2, LEv.arriveB 3,
   LEv.arriveB 4, LEv.arriveB 5,
   LEv.arriveA 0, LEv.arriveA 1, LEv.arriveA 2, LEv.arriveA 3,
   LEv.arriveA 4, LEv.arriveA 5,
   LEv.submit (cexMsg 6), LEv.submit (cexMsg 7), LEv.submit (cexMsg 8),
   LEv.submit (cexMsg 9), LEv.submit (cexMsg 10), LEv.submit (cexMsg 11),
   LEv.arriveB 6,
   LEv.arriveB 0,
   LEv.arriveB 7, LEv.arriveB 8, LEv.arriveB 9, LEv.arriveB 10, LEv.arriveB 11]

/-! ## Derived notions used by the claims -/

/-- The window entry `i` positions after `windowfirst` (the slot the C loops
address as `A_buffer[(windowfirst + i) % WINDOWSIZE]`). -/
def wEntry (buf : List BufEntry) (wf : Int) (i : Nat) : BufEntry :=
  buf.getD (posAt wf i) dA

/-- The conceptual `base` of the sender window: the sequence number of the
oldest outstanding packet, or `nextseqnum` when the window is empty. -/
def baseSeq (s : AState) : Int :=
  if 0 < s.windowcount then (wEntry s.buffer s.windowfirst 0).packet.seqnum
  else s.nextseqnum

/-- Sender states reachable through the handler lifecycle: start from the
initialised state, then any interleaving of submissions, packet arrivals
(arbitrary packets) and timer expiries (which can only fire while the timer
runs, and clear `timerOn` on entry). -/
inductive ReachableA : AState → Prop where
  | init : ReachableA initA
  | output (s : AState) (m : List Int) : ReachableA s → ReachableA (A_output s m).1
  | input (s : AState) (p : Pkt) : ReachableA s → ReachableA (A_input s p).1
  | timeout (s : AState) : ReachableA s → s.timerOn = true →
      ReachableA (A_timerinterrupt { s with timerOn := false }).1

/-- Structural invariant of reachable sender states: the buffer has its six
slots, the ring indexes are in range, at most six packets are outstanding and
their sequence numbers are consecutive modulo `SEQSPACE` ending just before
`nextseqnum`, `windowlast + 1` addresses the slot after the newest packet,
the oldest outstanding packet is never still marked acknowledged, the timer
runs iff the window is non-empty, and while the window is non-empty
`timer_seq` is the sequence number of some unacknowledged window packet. -/
def SInvP (s : AState) : Prop :=
  s.buffer.length = 6 ∧
  (0 ≤ s.windowfirst ∧ s.windowfirst < 6) ∧
  s.windowcount ≤ 6 ∧
  (∃ b, b < 12 ∧ s.nextseqnum = (((b + s.windowcount) % 12 : Nat) : Int) ∧
    ∀ i, i < s.windowcount →
      (wEntry s.buffer s.windowfirst i).packet.seqnum = (((b + i) % 12 : Nat) : Int)) ∧
  (-1 ≤ s.windowlast ∧ s.windowlast < 6 ∧
    ((s.windowlast + 1).tmod 6).toNat = posAt s.windowfirst s.windowcount) ∧
  (0 < s.windowcount → (wEntry s.buffer s.windowfirst 0).acked = false) ∧
  (s.timerOn = true ↔ 0 < s.windowcount) ∧
  (0 < s.windowcount → ∃ i, i < s.windowcount ∧
    (wEntry s.buffer s.windowfirst i).acked = false ∧
    s.timer_seq = (wEntry s.buffer s.windowfirst i).packet.seqnum)

instance (s : AState) : Decidable (SInvP s) := by
  unfold SInvP wEntry
  infer_instance

/-! ## Ghost notions for the FIFO-model correctness proof -/

/-- The `j`-th accepted message (ghost). -/
def msgAt (sub : List (List Int)) (j : Nat) : List Int := sub.getD j []

/-- The data packet `A_output` builds for the `j`-th accepted message:
sequence number `j mod SEQSPACE`, no acknum, the message as payload,
checksum over the finished fields. -/
def packetFor (sub : List (List Int)) (j : Nat) : Pkt :=
  mkPkt (((j % 12 : Nat)) : Int) NOTINUSE (msgAt sub j)

/-- Receiver knowledge: index `kk` has been received by B — either already
delivered (`kk < D`) or buffered in the receive window. -/
def KB (Bst : BState) (D : Nat) (kk : Nat) : Prop :=
  kk < D ∨ ∃ c, c < 6 ∧ (Bst.buffer.getD c dB).received = true ∧ kk = D + c

/-- Number of messages accepted at A so far. -/
def Ssub (s : FSys) : Nat := s.submitted.length

/-- Number of payloads delivered at B so far. -/
def Ddel (s : FSys) : Nat := s.delivered.length

/-- Absolute index of the oldest packet in A's window. -/
def baseF (s : FSys) : Nat := s.submitted.length - s.A.windowcount

/-- Inductive invariant of the FIFO model, with ghost index lists `js` (one
absolute message index per in-flight data packet, oldest first) and `gs`
(one absolute received-index per in-flight acknowledgement, oldest first).
It ties A's window to the accepted-message sequence, B's buffer and
delivered list to the same sequence, and bounds how stale any in-flight
packet can be relative to what B can come to know before it is processed. -/
structure FInv (s : FSys) (js gs : List Nat) : Prop where
  hWle6 : s.A.windowcount ≤ 6
  hWleS : s.A.windowcount ≤ s.submitted.length
  hAlen : s.A.buffer.length = 6
  hAwf0 : 0 ≤ s.A.windowfirst
  hAwf6 : s.A.windowfirst < 6
  hAnext : s.A.nextseqnum = ((s.submitted.length % 12 : Nat) : Int)
  hAwl1 : -1 ≤ s.A.windowlast
  hAwl6 : s.A.windowlast < 6
  hAwlast : ((s.A.windowlast + 1).tmod 6).toNat = posAt s.A.windowfirst s.A.windowcount
  hAwin : ∀ i, i < s.A.windowcount →
    (wEntry s.A.buffer s.A.windowfirst i).packet = packetFor s.submitted (baseF s + i)
  hAackKB : ∀ i, i < s.A.windowcount →
    (wEntry s.A.buffer s.A.windowfirst i).acked = true → KB s.B (Ddel s) (baseF s + i)
  hBlen : s.B.buffer.length = 6
  hBwf : s.B.windowfirst = ((s.delivered.length % 12 : Nat) : Int)
  hBslot : ∀ c, c < 6 → (s.B.buffer.getD c dB).received = true →
    (s.B.buffer.getD c dB).packet = packetFor s.submitted (Ddel s + c) ∧
      Ddel s + c < Ssub s
  hB0 : (s.B.buffer.getD 0 dB).received = false
  hDel : s.delivered = s.submitted.take (Ddel s)
  hDS : Ddel s ≤ Ssub s
  hbaseD : baseF s ≤ Ddel s
  hjs : List.Forall₂ (fun j q => q = packetFor s.submitted j) js s.chanAB
  hjsS : ∀ j ∈ js, j < Ssub s
  hjsKB : ∀ j ∈ js, ∀ kk, KB s.B (Ddel s) kk → kk ≤ j + 5
  hjsAck : ∀ j ∈ js, ∀ i, i < s.A.windowcount →
    (wEntry s.A.buffer s.A.windowfirst i).acked = true → baseF s + i ≤ j + 5
  hjsBase : ∀ j ∈ js, baseF s ≤ j + 6
  hjsPair : js.Pairwise (fun a b => a ≤ b + 5)
  hgs : List.Forall₂
    (fun g q => q.acknum = ((g % 12 : Nat) : Int) ∧ IsCorrupted q = false) gs s.chanBA
  hgsKB : ∀ g ∈ gs, KB s.B (Ddel s) g
  hgsAck : ∀ g ∈ gs, ∀ i, i < s.A.windowcount →
    (wEntry s.A.buffer s.A.windowfirst i).acked = true → baseF s + i ≤ g + 5
  hgsBase : ∀ g ∈ gs, baseF s ≤ g + 6
  hgsPair : gs.Pairwise (fun a b => a ≤ b + 5)

/-! # Theorems

## Toolkit lemmas -/

theorem getD_set_self {α : Type} (l : List α) (i : Nat) (a d : α) (h : i < l.length) :
    (l.set i a).getD i d = a := by
  simp [List.getD_eq_getElem?_getD, List.getElem?_set_self h]

theorem getD_set_other {α : Type} (l : List α) (i j : Nat) (a d : α) (h : i ≠ j) :
    (l.set i a).getD j d = l.getD j d := by
  simp [List.getD_eq_getElem?_getD, List.getElem?_set_ne h]

theorem tmod_ofNat (m n : Nat) : ((m : Int)).tmod ((n : Int)) = ((m % n : Nat) : Int) := rfl

theorem tmod_nonneg_eq (a : Int) (n : Nat) (h : 0 ≤ a) :
    a.tmod ((n : Int)) = ((a.toNat % n : Nat) : Int) := by
  cases a with
  | ofNat m => rfl
  | negSucc m => exact absurd h (by simp)

theorem posAt_ofNat (wfn i : Nat) : posAt ((wfn : Int)) i = (wfn + i) % 6 := by
  unfold posAt
  rw [show ((6 : Int)) = ((6 : Nat) : Int) from rfl,
    show ((wfn : Int)) + Int.ofNat i = (((wfn + i : Nat)) : Int) from rfl, tmod_ofNat]
  exact Int.toNat_natCast _

theorem add_one_tmod_eq (wfn n : Nat) :
    (((wfn : Int)) + 1).tmod ((n : Int)) = (((wfn + 1) % n : Nat) : Int) := by
  rw [show ((wfn : Int)) + 1 = (((wfn + 1 : Nat)) : Int) from rfl, tmod_ofNat]

theorem add_one_tmod_six (wfn : Nat) :
    (((wfn : Int)) + 1).tmod 6 = (((wfn + 1) % 6 : Nat) : Int) :=
  add_one_tmod_eq wfn 6

theorem add_one_tmod_twelve (wfn : Nat) :
    (((wfn : Int)) + 1).tmod 12 = (((wfn + 1) % 12 : Nat) : Int) :=
  add_one_tmod_eq wfn 12

theorem tmod_six_nonneg (a : Int) (h : 0 ≤ a) : a.tmod 6 = ((a.toNat % 6 : Nat) : Int) :=
  tmod_nonneg_eq a 6 h

theorem tmod_twelve_nonneg (a : Int) (h : 0 ≤ a) : a.tmod 12 = ((a.toNat % 12 : Nat) : Int) :=
  tmod_nonneg_eq a 12 h

theorem ackPkts_append (l₁ l₂ : List BAction) :
    ackPkts (l₁ ++ l₂) = ackPkts l₁ ++ ackPkts l₂ := by
  simp [ackPkts]

theorem payloadsOf_append (l₁ l₂ : List BAction) :
    payloadsOf (l₁ ++ l₂) = payloadsOf l₁ ++ payloadsOf l₂ := by
  simp [payloadsOf]

theorem outPkts_append (l₁ l₂ : List AAction) :
    outPkts (l₁ ++ l₂) = outPkts l₁ ++ outPkts l₂ := by
  simp [outPkts]

theorem deliverLoop_no_acks (fuel : Nat) (buf : List BEntry) (wf : Int) :
    ackPkts (deliverLoop fuel buf wf).2.2 = [] := by
  induction fuel generalizing buf wf with
  | zero => rfl
  | succ n ih =>
    unfold deliverLoop
    split
    · simpa [ackPkts, List.filterMap_cons] using ih _ _
    · rfl

/-! ## Characterisation of the C search loops -/

theorem firstIdxAux_none_iff (buf : List BufEntry) (wf : Int) (p : BufEntry → Bool) :
    ∀ (n i : Nat), firstIdxAux buf wf p i n = none ↔
      ∀ k, i ≤ k → k < i + n → p (wEntry buf wf k) = false := by
  intro n
  induction n with
  | zero =>
    intro i
    constructor
    · intro _ k h1 h2; omega
    · intro _; rfl
  | succ n ih =>
    intro i
    unfold firstIdxAux
    cases h : p (buf.getD (posAt wf i) dA) with
    | true =>
      simp only [if_pos rfl, h, if_true]
      constructor
      · intro hc; exact absurd hc (by simp)
      · intro hall
        have := hall i (le_refl i) (by omega)
        rw [wEntry] at this
        rw [this] at h
        exact absurd h (by simp)
    | false =>
      simp only [h, Bool.false_eq_true, if_false]
      rw [ih (i + 1)]
      constructor
      · intro hall k h1 h2
        rcases Nat.eq_or_lt_of_le h1 with heq | hlt
        · rw [← heq, wEntry]; exact h
        · exact hall k hlt (by omega)
      · intro hall k h1 h2
        exact hall k (by omega) (by omega)

theorem firstIdxAux_some (buf : List BufEntry) (wf : Int) (p : BufEntry → Bool) :
    ∀ (n i j : Nat), firstIdxAux buf wf p i n = some j →
      i ≤ j ∧ j < i + n ∧ p (wEntry buf wf j) = true ∧
        ∀ k, i ≤ k → k < j → p (wEntry buf wf k) = false := by
  intro n
  induction n with
  | zero => intro i j hc; exact absurd hc (by simp [firstIdxAux])
  | succ n ih =>
    intro i j
    unfold firstIdxAux
    cases h : p (buf.getD (posAt wf i) dA) with
    | true =>
      simp only [if_pos rfl, h, if_true, Option.some.injEq]
      intro hij
      subst hij
      exact ⟨le_refl i, by omega, h, fun k h1 h2 => by omega⟩
    | false =>
      simp only [h, Bool.false_eq_true, if_false]
      intro hrec
      obtain ⟨h1, h2, h3, h4⟩ := ih (i + 1) j hrec
      refine ⟨by omega, by omega, h3, ?_⟩
      intro k hk1 hk2
      rcases Nat.eq_or_lt_of_le hk1 with heq | hlt
      · rw [← heq, wEntry]; exact h
      · exact h4 k hlt hk2

theorem firstIdxAux_some_of (buf : List BufEntry) (wf : Int) (p : BufEntry → Bool) :
    ∀ (n i j : Nat), i ≤ j → j < i + n → p (wEntry buf wf j) = true →
      (∀ k, i ≤ k → k < j → p (wEntry buf wf k) = false) →
      firstIdxAux buf wf p i n = some j := by
  intro n
  induction n with
  | zero => intro i j h1 h2; omega
  | succ n ih =>
    intro i j h1 h2 h3 h4
    unfold firstIdxAux
    rcases Nat.eq_or_lt_of_le h1 with heq | hlt
    · subst heq
      rw [wEntry] at h3
      simp only [h3, if_true]
    · have hfi : p (buf.getD (posAt wf i) dA) = false := h4 i (le_refl i) hlt
      simp only [hfi, Bool.false_eq_true, if_false]
      exact ih (i + 1) j hlt (by omega) h3 fun k hk1 hk2 => h4 k (by omega) hk2

theorem firstIdx_none_iff (buf : List BufEntry) (wf : Int) (wc : Nat) (p : BufEntry → Bool) :
    firstIdx buf wf wc p = none ↔ ∀ k, k < wc → p (wEntry buf wf k) = false := by
  rw [firstIdx, firstIdxAux_none_iff]
  constructor
  · intro h k hk; exact h k (by omega) (by omega)
  · intro h k _ hk; exact h k (by omega)

theorem firstIdx_some (buf : List BufEntry) (wf : Int) (wc : Nat) (p : BufEntry → Bool)
    (j : Nat) (h : firstIdx buf wf wc p = some j) :
    j < wc ∧ p (wEntry buf wf j) = true ∧ ∀ k, k < j → p (wEntry buf wf k) = false := by
  obtain ⟨h1, h2, h3, h4⟩ := firstIdxAux_some buf wf p wc 0 j h
  exact ⟨by omega, h3, fun k hk => h4 k (by omega) hk⟩

theorem firstIdx_some_of (buf : List BufEntry) (wf : Int) (wc : Nat) (p : BufEntry → Bool)
    (j : Nat) (hj : j < wc) (hp : p (wEntry buf wf j) = true)
    (hmin : ∀ k, k < j → p (wEntry buf wf k) = false) :
    firstIdx buf wf wc p = some j :=
  firstIdxAux_some_of buf wf p wc 0 j (by omega) (by omega) hp fun k _ hk => hmin k hk

theorem timedPred_iff (e : BufEntry) (ts : Int) :
    (e.packet.seqnum == ts && !e.acked) = true ↔
      (e.packet.seqnum = ts ∧ e.acked = false) := by
  simp

theorem slideW_spec (buf : List BufEntry) :
    ∀ (wc wfn : Nat), wfn < 6 →
      ∃ k, k ≤ wc ∧
        slideW buf wc ((wfn : Int)) = ((((wfn + k) % 6 : Nat) : Int), wc - k) ∧
        (∀ i, i < k → (buf.getD ((wfn + i) % 6) dA).acked = true) ∧
        (k < wc → (buf.getD ((wfn + k) % 6) dA).acked = false) := by
  intro wc
  induction wc with
  | zero =>
    intro wfn h6
    refine ⟨0, le_refl 0, ?_, by omega, by omega⟩
    simp [slideW, Nat.mod_eq_of_lt h6]
  | succ n ih =>
    intro wfn h6
    cases ha : (buf.getD wfn dA).acked with
    | false =>
      refine ⟨0, by omega, ?_, by omega, ?_⟩
      · show slideW buf (Nat.succ n) ((wfn : Int)) = _
        unfold slideW
        rw [show ((wfn : Int)).toNat = wfn from rfl, ha]
        simp [Nat.mod_eq_of_lt h6]
      · intro _
        rw [Nat.add_zero, Nat.mod_eq_of_lt h6]
        exact ha
    | true =>
      obtain ⟨k, hk, hsl, h3, h4⟩ := ih ((wfn + 1) % 6) (Nat.mod_lt _ (by omega))
      refine ⟨k + 1, by omega, ?_, ?_, ?_⟩
      · show slideW buf (Nat.succ n) ((wfn : Int)) = _
        unfold slideW
        rw [show ((wfn : Int)).toNat = wfn from rfl, ha, if_pos rfl,
          add_one_tmod_six, hsl]
        refine congrArg₂ Prod.mk (by omega) (by omega)
      · intro i hi
        cases i with
        | zero => rw [Nat.add_zero, Nat.mod_eq_of_lt h6]; exact ha
        | succ i =>
          have := h3 i (by omega)
          rw [show ((wfn + 1) % 6 + i) % 6 = (wfn + (i + 1)) % 6 by omega] at this
          exact this
      · intro hlt
        have := h4 (by omega)
        rw [show ((wfn + 1) % 6 + k) % 6 = (wfn + (k + 1)) % 6 by omega] at this
        exact this

theorem mark_packet (buf : List BufEntry) (q : Nat) (hq : q < buf.length) (j : Nat) :
    ((buf.set q { packet := (buf.getD q dA).packet, acked := true }).getD j dA).packet =
      (buf.getD j dA).packet := by
  by_cases h : q = j
  · subst h
    rw [getD_set_self _ _ _ _ hq]
  · rw [getD_set_other _ _ _ _ _ h]

theorem mark_acked_self (buf : List BufEntry) (q : Nat) (hq : q < buf.length) :
    ((buf.set q { packet := (buf.getD q dA).packet, acked := true }).getD q dA).acked = true := by
  rw [getD_set_self _ _ _ _ hq]

theorem mark_acked_other (buf : List BufEntry) (q j : Nat) (h : q ≠ j) :
    ((buf.set q { packet := (buf.getD q dA).packet, acked := true }).getD j dA).acked =
      (buf.getD j dA).acked := by
  rw [getD_set_other _ _ _ _ _ h]

/-! ## Preservation of the sender invariant -/

theorem SInv_init : SInvP initA := by decide

theorem SInv_output (s : AState) (m : List Int) (hs : SInvP s) : SInvP (A_output s m).1 := by
  obtain ⟨hlen, ⟨hwf0, hwf6⟩, hwc, ⟨b, hb, hnext, hseq⟩, ⟨hwl1, hwl6, hwlast⟩,
    hfront, htimer, htseq⟩ := hs
  by_cases h : s.windowcount < 6
  · have hwf_eq : s.windowfirst = ((s.windowfirst.toNat : Nat) : Int) := by omega
    set wfn := s.windowfirst.toNat with hwfn_def
    have hwfn6 : wfn < 6 := by omega
    have hq6 : (wfn + s.windowcount) % 6 < 6 := Nat.mod_lt _ (by omega)
    have hposq : posAt s.windowfirst s.windowcount = (wfn + s.windowcount) % 6 := by
      rw [hwf_eq, posAt_ofNat]
    have hwl_eq : (s.windowlast + 1).tmod 6 = (((wfn + s.windowcount) % 6 : Nat) : Int) := by
      rw [tmod_six_nonneg _ (by omega)]
      have h2 := hwlast
      rw [tmod_six_nonneg _ (by omega), Int.toNat_natCast, hposq] at h2
      omega
    simp only [wEntry, hwf_eq, posAt_ofNat] at hseq hfront htseq
    unfold A_output
    rw [if_pos h]
    dsimp only
    rw [hwl_eq]
    unfold SInvP
    dsimp only
    simp only [wEntry, hwf_eq, posAt_ofNat, Int.toNat_natCast, List.length_set]
    refine ⟨hlen, ⟨by omega, by omega⟩, by omega, ?_, ?_, ?_, ?_, ?_⟩
    · refine ⟨b, hb, ?_, ?_⟩
      · rw [hnext, add_one_tmod_twelve]
        omega
      · intro i hi
        rcases Nat.lt_or_ge i s.windowcount with hlt | hge
        · rw [getD_set_other _ _ _ _ _ (by omega)]
          exact hseq i hlt
        · have hieq : i = s.windowcount := by omega
          subst hieq
          rw [getD_set_self _ _ _ _ (by omega)]
          exact hnext
    · refine ⟨by omega, by omega, ?_⟩
      rw [add_one_tmod_six, Int.toNat_natCast]
      omega
    · intro _
      rcases Nat.eq_zero_or_pos s.windowcount with h0 | h0
      · rw [show (wfn + 0) % 6 = (wfn + s.windowcount) % 6 by omega,
          getD_set_self _ _ _ _ (by omega)]
      · rw [getD_set_other _ _ _ _ _ (by omega)]
        exact hfront h0
    · rcases Nat.eq_zero_or_pos s.windowcount with h0 | h0
      · rw [if_pos (by omega)]
        simp
      · rw [if_neg (by omega)]
        constructor
        · intro _; omega
        · intro _; exact htimer.mpr h0
    · intro _
      rcases Nat.eq_zero_or_pos s.windowcount with h0 | h0
      · rw [if_pos (by omega)]
        refine ⟨0, by omega, ?_, ?_⟩
        · rw [show (wfn + 0) % 6 = (wfn + s.windowcount) % 6 by omega,
            getD_set_self _ _ _ _ (by omega)]
        · rw [show (wfn + 0) % 6 = (wfn + s.windowcount) % 6 by omega,
            getD_set_self _ _ _ _ (by omega)]
      · rw [if_neg (by omega)]
        obtain ⟨i₁, hi₁, hack₁, hts₁⟩ := htseq h0
        refine ⟨i₁, by omega, ?_, ?_⟩
        · rw [getD_set_other _ _ _ _ _ (by omega)]
          exact hack₁
        · rw [getD_set_other _ _ _ _ _ (by omega)]
          exact hts₁
  · unfold A_output
    rw [if_neg h]
    exact ⟨hlen, ⟨hwf0, hwf6⟩, hwc, ⟨b, hb, hnext, hseq⟩, ⟨hwl1, hwl6, hwlast⟩,
      hfront, htimer, htseq⟩

theorem SInv_input (s : AState) (p : Pkt) (hs : SInvP s) : SInvP (A_input s p).1 := by
  by_cases hc : IsCorrupted p = true
  · unfold A_input
    rw [if_pos hc]
    exact hs
  · have hc' : IsCorrupted p = false := by simpa using hc
    obtain ⟨hlen, ⟨hwf0, hwf6⟩, hwc, ⟨b, hb, hnext, hseq⟩, ⟨hwl1, hwl6, hwlast⟩,
      hfront, htimer, htseq⟩ := hs
    have hwf_eq : s.windowfirst = ((s.windowfirst.toNat : Nat) : Int) := by omega
    set wfn := s.windowfirst.toNat with hwfn_def
    have hwfn6 : wfn < 6 := by omega
    simp only [wEntry, hwf_eq, posAt_ofNat] at hseq hfront htseq
    have hwl_norm : (s.windowlast + 1).toNat % 6 = (wfn + s.windowcount) % 6 := by
      have h2 := hwlast
      rw [tmod_six_nonneg _ (by omega), Int.toNat_natCast, hwf_eq, posAt_ofNat] at h2
      exact h2
    unfold A_input
    rw [if_neg hc]
    dsimp only
    rw [hwf_eq]
    simp only [posAt_ofNat]
    cases hmi : firstIdx s.buffer ((wfn : Int)) s.windowcount
        (fun e => e.packet.seqnum == p.acknum && !e.acked) with
    | none =>
      dsimp only
      obtain ⟨k, hk, hsl, hkack, hkun⟩ := slideW_spec s.buffer s.windowcount wfn hwfn6
      rw [hsl]
      unfold SInvP
      dsimp only
      simp only [wEntry, posAt_ofNat]
      refine ⟨hlen, ⟨by omega, by
        have hx : (wfn + k) % 6 < 6 := Nat.mod_lt _ (by omega)
        omega⟩, by omega, ?_, ?_, ?_, ?_, ?_⟩
      · refine ⟨(b + k) % 12, by omega, ?_, ?_⟩
        · rw [hnext]; omega
        · intro i hi
          rw [show ((wfn + k) % 6 + i) % 6 = (wfn + (k + i)) % 6 by omega,
            hseq (k + i) (by omega)]
          omega
      · refine ⟨hwl1, hwl6, ?_⟩
        rw [tmod_six_nonneg _ (by omega), Int.toNat_natCast]
        omega
      · intro hpos
        rw [show ((wfn + k) % 6 + 0) % 6 = (wfn + k) % 6 by omega]
        exact hkun (by omega)
      · rcases Nat.eq_zero_or_pos (s.windowcount - k) with h0 | h0
        · rw [if_pos h0]
          simp [h0]
        · rw [if_neg (by omega)]
          cases hbeq : p.acknum == s.timer_seq with
          | false =>
            rw [if_neg (show ¬(false = true) by simp)]
            dsimp only
            have ht := htimer.mpr (show 0 < s.windowcount by omega)
            exact ⟨fun _ => by omega, fun _ => ht⟩
          | true =>
            rw [if_pos rfl]
            cases hfu : firstIdx s.buffer ((wfn : Int)) s.windowcount (fun e => !e.acked) with
            | some j =>
              exact iff_of_true rfl h0
            | none =>
              exfalso
              rw [firstIdx_none_iff] at hfu
              have hfk := hfu k (by omega)
              simp only [wEntry, posAt_ofNat] at hfk
              rw [hkun (by omega)] at hfk
              exact absurd hfk (by simp)
      · intro hpos
        cases hbeq : p.acknum == s.timer_seq with
        | false =>
          rw [if_neg (show ¬(false = true) by simp)]
          dsimp only
          obtain ⟨i₁, hi₁, hack₁, hts₁⟩ := htseq (by omega)
          have hik : k ≤ i₁ := by
            by_contra hlt
            have h1 := hkack i₁ (by omega)
            rw [hack₁] at h1
            exact absurd h1 (by simp)
          refine ⟨i₁ - k, by omega, ?_, ?_⟩
          · rw [show ((wfn + k) % 6 + (i₁ - k)) % 6 = (wfn + i₁) % 6 by omega]
            exact hack₁
          · rw [show ((wfn + k) % 6 + (i₁ - k)) % 6 = (wfn + i₁) % 6 by omega]
            exact hts₁
        | true =>
          rw [if_pos rfl]
          cases hfu : firstIdx s.buffer ((wfn : Int)) s.windowcount (fun e => !e.acked) with
          | none =>
            exfalso
            rw [firstIdx_none_iff] at hfu
            have hfk := hfu k (by omega)
            simp only [wEntry, posAt_ofNat] at hfk
            rw [hkun (by omega)] at hfk
            exact absurd hfk (by simp)
          | some j =>
            dsimp only
            obtain ⟨hj, hjp, hjmin⟩ := firstIdx_some _ _ _ _ j hfu
            simp only [wEntry, posAt_ofNat] at hjp hjmin
            have hkj : k = j := by
              rcases Nat.lt_trichotomy k j with hlt | heq | hgt
              · have h1 := hjmin k hlt
                rw [hkun (by omega)] at h1
                exact absurd h1 (by simp)
              · exact heq
              · have h1 := hkack j hgt
                rw [h1] at hjp
                exact absurd hjp (by simp)
            subst hkj
            refine ⟨0, by omega, ?_, ?_⟩
            · rw [show ((wfn + k) % 6 + 0) % 6 = (wfn + k) % 6 by omega]
              simpa using hjp
            · rw [show ((wfn + k) % 6 + 0) % 6 = (wfn + k) % 6 by omega]
    | some i₀ =>
      dsimp only
      obtain ⟨hi₀, hp₀, hmin₀⟩ := firstIdx_some _ _ _ _ i₀ hmi
      simp only [wEntry, posAt_ofNat] at hp₀ hmin₀
      obtain ⟨hseq₀, hack₀⟩ := (timedPred_iff _ _).mp hp₀
      have hq6 : (wfn + i₀) % 6 < 6 := Nat.mod_lt _ (by omega)
      have hqlen : (wfn + i₀) % 6 < s.buffer.length := by omega
      set buf1 := s.buffer.set ((wfn + i₀) % 6)
        { packet := (s.buffer.getD ((wfn + i₀) % 6) dA).packet, acked := true } with hbuf1_def
      have hlen1 : buf1.length = 6 := by rw [hbuf1_def, List.length_set]; exact hlen
      have hpkt : ∀ j : Nat, (buf1.getD j dA).packet = (s.buffer.getD j dA).packet := by
        intro j
        rw [hbuf1_def]
        exact mark_packet s.buffer _ hqlen j
      have hackoth : ∀ j : Nat, (wfn + i₀) % 6 ≠ j →
          (buf1.getD j dA).acked = (s.buffer.getD j dA).acked := by
        intro j hne
        rw [hbuf1_def]
        exact mark_acked_other s.buffer _ j hne
      obtain ⟨k, hk, hsl, hkack, hkun⟩ := slideW_spec buf1 s.windowcount wfn hwfn6
      rw [hsl]
      unfold SInvP
      dsimp only
      simp only [wEntry, posAt_ofNat]
      refine ⟨hlen1, ⟨by omega, by
        have hx : (wfn + k) % 6 < 6 := Nat.mod_lt _ (by omega)
        omega⟩, by omega, ?_, ?_, ?_, ?_, ?_⟩
      · refine ⟨(b + k) % 12, by omega, ?_, ?_⟩
        · rw [hnext]; omega
        · intro i hi
          rw [show ((wfn + k) % 6 + i) % 6 = (wfn + (k + i)) % 6 by omega, hpkt,
            hseq (k + i) (by omega)]
          omega
      · refine ⟨hwl1, hwl6, ?_⟩
        rw [tmod_six_nonneg _ (by omega), Int.toNat_natCast]
        omega
      · intro hpos
        rw [show ((wfn + k) % 6 + 0) % 6 = (wfn + k) % 6 by omega]
        exact hkun (by omega)
      · rcases Nat.eq_zero_or_pos (s.windowcount - k) with h0 | h0
        · rw [if_pos h0]
          simp [h0]
        · rw [if_neg (by omega)]
          cases hbeq : p.acknum == s.timer_seq with
          | false =>
            rw [if_neg (show ¬(false = true) by simp)]
            dsimp only
            have ht := htimer.mpr (show 0 < s.windowcount by omega)
            exact ⟨fun _ => by omega, fun _ => ht⟩
          | true =>
            rw [if_pos rfl]
            cases hfu : firstIdx buf1 ((wfn : Int)) s.windowcount (fun e => !e.acked) with
            | some j =>
              exact iff_of_true rfl h0
            | none =>
              exfalso
              rw [firstIdx_none_iff] at hfu
              have hfk := hfu k (by omega)
              simp only [wEntry, posAt_ofNat] at hfk
              rw [hkun (by omega)] at hfk
              exact absurd hfk (by simp)
      · intro hpos
        cases hbeq : p.acknum == s.timer_seq with
        | false =>
          rw [if_neg (show ¬(false = true) by simp)]
          dsimp only
          obtain ⟨i₁, hi₁, hack₁, hts₁⟩ := htseq (by omega)
          have hne₀ : i₁ ≠ i₀ := by
            intro heq
            subst heq
            rw [hseq₀] at hts₁
            rw [hts₁] at hbeq
            simp at hbeq
          have hslotne : (wfn + i₀) % 6 ≠ (wfn + i₁) % 6 := by omega
          have hack₁b : (buf1.getD ((wfn + i₁) % 6) dA).acked = false := by
            rw [hackoth _ hslotne]
            exact hack₁
          have hik : k ≤ i₁ := by
            by_contra hlt
            have h1 := hkack i₁ (by omega)
            rw [hack₁b] at h1
            exact absurd h1 (by simp)
          refine ⟨i₁ - k, by omega, ?_, ?_⟩
          · rw [show ((wfn + k) % 6 + (i₁ - k)) % 6 = (wfn + i₁) % 6 by omega]
            exact hack₁b
          · rw [show ((wfn + k) % 6 + (i₁ - k)) % 6 = (wfn + i₁) % 6 by omega, hpkt]
            exact hts₁
        | true =>
          rw [if_pos rfl]
          cases hfu : firstIdx buf1 ((wfn : Int)) s.windowcount (fun e => !e.acked) with
          | none =>
            exfalso
            rw [firstIdx_none_iff] at hfu
            have hfk := hfu k (by omega)
            simp only [wEntry, posAt_ofNat] at hfk
            rw [hkun (by omega)] at hfk
            exact absurd hfk (by simp)
          | some j =>
            dsimp only
            obtain ⟨hj, hjp, hjmin⟩ := firstIdx_some _ _ _ _ j hfu
            simp only [wEntry, posAt_ofNat] at hjp hjmin
            have hkj : k = j := by
              rcases Nat.lt_trichotomy k j with hlt | heq | hgt
              · have h1 := hjmin k hlt
                rw [hkun (by omega)] at h1
                exact absurd h1 (by simp)
              · exact heq
              · have h1 := hkack j hgt
                rw [h1] at hjp
                exact absurd hjp (by simp)
            subst hkj
            refine ⟨0, by omega, ?_, ?_⟩
            · rw [show ((wfn + k) % 6 + 0) % 6 = (wfn + k) % 6 by omega]
              simpa using hjp
            · rw [show ((wfn + k) % 6 + 0) % 6 = (wfn + k) % 6 by omega]

theorem SInv_timeout (s : AState) (hs : SInvP s) (ht : s.timerOn = true) :
    SInvP (A_timerinterrupt { s with timerOn := false }).1 := by
  obtain ⟨hlen, ⟨hwf0, hwf6⟩, hwc, ⟨b, hb, hnext, hseq⟩, ⟨hwl1, hwl6, hwlast⟩,
    hfront, htimer, htseq⟩ := hs
  have hwc0 : 0 < s.windowcount := htimer.mp ht
  unfold A_timerinterrupt
  dsimp only
  cases hmi : firstIdx s.buffer s.windowfirst s.windowcount
      (fun e => e.packet.seqnum == s.timer_seq && !e.acked) with
  | some i =>
    exact ⟨hlen, ⟨hwf0, hwf6⟩, hwc, ⟨b, hb, hnext, hseq⟩, ⟨hwl1, hwl6, hwlast⟩,
      hfront, iff_of_true rfl hwc0, htseq⟩
  | none =>
    have hf0 : firstIdx s.buffer s.windowfirst s.windowcount (fun e => !e.acked) = some 0 := by
      apply firstIdx_some_of _ _ _ _ 0 hwc0
      · simp [hfront hwc0]
      · intro k hk; omega
    rw [hf0]
    refine ⟨hlen, ⟨hwf0, hwf6⟩, hwc, ⟨b, hb, hnext, hseq⟩, ⟨hwl1, hwl6, hwlast⟩,
      hfront, iff_of_true rfl hwc0, ?_⟩
    intro _
    exact ⟨0, hwc0, hfront hwc0, rfl⟩

theorem ReachableA_SInvP (s : AState) (h : ReachableA s) : SInvP s := by
  induction h with
  | init => exact SInv_init
  | output s m _ ih => exact SInv_output s m ih
  | input s p _ ih => exact SInv_input s p ih
  | timeout s _ ht ih => exact SInv_timeout s ih ht

/-! ## C3: the timer is active iff the window is non-empty -/

/-- **C3**: in every sender state reachable through the handler lifecycle
(`A_init`, then any interleaving of `A_output`, `A_input` and timer
expiries), the retransmission timer is running iff the window is non-empty;
in particular once all outstanding packets are acknowledged and the window
slides empty, the timer is stopped. -/
theorem C3_timer_active_iff_window_nonempty (s : AState) (h : ReachableA s) :
    s.timerOn = true ↔ 0 < s.windowcount := by
  obtain ⟨_, _, _, _, _, _, htimer, _⟩ := ReachableA_SInvP s h
  exact htimer

/-- Witness for C3 at the reachable state with one packet outstanding. -/
theorem C3_witness :
    (A_output initA (cexMsg 0)).1.timerOn = true ↔
      0 < (A_output initA (cexMsg 0)).1.windowcount :=
  C3_timer_active_iff_window_nonempty (A_output initA (cexMsg 0)).1
    (ReachableA.output initA (cexMsg 0) ReachableA.init)

/-! ## C5: the window bound -/

/-- **C5**: in every reachable sender state the number of outstanding
packets is at most `WINDOWSIZE`, `(nextseqnum − base) mod SEQSPACE ≤
WINDOWSIZE` (with `base` the sequence number of the oldest outstanding
packet, or `nextseqnum` for an empty window), and `A_output` never admits a
packet into a window already holding `WINDOWSIZE` packets. -/
theorem C5_window_bound (s : AState) (h : ReachableA s) :
    s.windowcount ≤ 6 ∧
    (s.nextseqnum - baseSeq s) % SEQSPACE ≤ WINDOWSIZE ∧
    (∀ m, s.windowcount = 6 → A_output s m = (s, [AAction.incWindowFull])) := by
  obtain ⟨hlen, ⟨hwf0, hwf6⟩, hwc, ⟨b, hb, hnext, hseq⟩, _, _, _, _⟩ :=
    ReachableA_SInvP s h
  refine ⟨hwc, ?_, ?_⟩
  · unfold baseSeq SEQSPACE WINDOWSIZE
    by_cases h0 : 0 < s.windowcount
    · rw [if_pos h0, hseq 0 h0, hnext]
      omega
    · rw [if_neg h0]
      omega
  · intro m h6
    unfold A_output
    rw [if_neg (by omega)]

/-- Witness for C5 at the reachable state with one packet outstanding. -/
theorem C5_witness :
    (A_output initA (cexMsg 0)).1.windowcount ≤ 6 ∧
    ((A_output initA (cexMsg 0)).1.nextseqnum - baseSeq (A_output initA (cexMsg 0)).1) %
      SEQSPACE ≤ WINDOWSIZE ∧
    (∀ m, (A_output initA (cexMsg 0)).1.windowcount = 6 →
      A_output (A_output initA (cexMsg 0)).1 m =
        ((A_output initA (cexMsg 0)).1, [AAction.incWindowFull])) :=
  C5_window_bound (A_output initA (cexMsg 0)).1
    (ReachableA.output initA (cexMsg 0) ReachableA.init)

/-! ## C8: duplicate acknowledgements are idempotent -/

/-- After one uncorrupted `A_input`, no window packet carrying the
acknowledged sequence number is still unacknowledged. -/
theorem A_input_acked_of_seq_match (s : AState) (p : Pkt) (hs : SInvP s)
    (hc' : IsCorrupted p = false) :
    ∀ i, i < (A_input s p).1.windowcount →
      (wEntry (A_input s p).1.buffer (A_input s p).1.windowfirst i).packet.seqnum = p.acknum →
      (wEntry (A_input s p).1.buffer (A_input s p).1.windowfirst i).acked = true := by
  obtain ⟨hlen, ⟨hwf0, hwf6⟩, hwc, ⟨b, hb, hnext, hseq⟩, ⟨hwl1, hwl6, hwlast⟩,
    hfront, htimer, htseq⟩ := hs
  have hwf_eq : s.windowfirst = ((s.windowfirst.toNat : Nat) : Int) := by omega
  set wfn := s.windowfirst.toNat with hwfn_def
  have hwfn6 : wfn < 6 := by omega
  simp only [wEntry, hwf_eq, posAt_ofNat] at hseq
  unfold A_input
  rw [if_neg (by simp [hc'])]
  dsimp only
  rw [hwf_eq]
  simp only [posAt_ofNat]
  cases hmi : firstIdx s.buffer ((wfn : Int)) s.windowcount
      (fun e => e.packet.seqnum == p.acknum && !e.acked) with
  | none =>
    dsimp only
    obtain ⟨k, hk, hsl, hkack, hkun⟩ := slideW_spec s.buffer s.windowcount wfn hwfn6
    rw [hsl]
    dsimp only
    simp only [wEntry, posAt_ofNat]
    intro i hi hm
    rw [show ((wfn + k) % 6 + i) % 6 = (wfn + (k + i)) % 6 by omega] at hm ⊢
    have hpred := (firstIdx_none_iff _ _ _ _).mp hmi (k + i) (by omega)
    simp only [wEntry, posAt_ofNat] at hpred
    rw [hm] at hpred
    simpa using hpred
  | some i₀ =>
    dsimp only
    obtain ⟨hi₀, hp₀, hmin₀⟩ := firstIdx_some _ _ _ _ i₀ hmi
    simp only [wEntry, posAt_ofNat] at hp₀
    obtain ⟨hseq₀, hack₀⟩ := (timedPred_iff _ _).mp hp₀
    have hq6 : (wfn + i₀) % 6 < 6 := Nat.mod_lt _ (by omega)
    have hqlen : (wfn + i₀) % 6 < s.buffer.length := by omega
    set buf1 := s.buffer.set ((wfn + i₀) % 6)
      { packet := (s.buffer.getD ((wfn + i₀) % 6) dA).packet, acked := true } with hbuf1_def
    have hpkt : ∀ j : Nat, (buf1.getD j dA).packet = (s.buffer.getD j dA).packet := by
      intro j
      rw [hbuf1_def]
      exact mark_packet s.buffer _ hqlen j
    obtain ⟨k, hk, hsl, hkack, hkun⟩ := slideW_spec buf1 s.windowcount wfn hwfn6
    rw [hsl]
    dsimp only
    simp only [wEntry, posAt_ofNat]
    intro i hi hm
    rw [show ((wfn + k) % 6 + i) % 6 = (wfn + (k + i)) % 6 by omega] at hm ⊢
    by_cases he : k + i = i₀
    · rw [he, hbuf1_def]
      exact mark_acked_self s.buffer _ hqlen
    · exfalso
      rw [hpkt] at hm
      have h1 := hseq (k + i) (by omega)
      have h2 := hseq i₀ (by omega)
      rw [h1] at hm
      rw [h2] at hseq₀
      rw [← hseq₀] at hm
      omega

/-- An uncorrupted acknowledgement that matches no unacknowledged window
packet leaves the sender state exactly unchanged. -/
theorem A_input_inert (r : AState) (p : Pkt) (hr : SInvP r) (hc' : IsCorrupted p = false)
    (hnm : ∀ i, i < r.windowcount →
      (wEntry r.buffer r.windowfirst i).packet.seqnum = p.acknum →
      (wEntry r.buffer r.windowfirst i).acked = true) :
    (A_input r p).1 = r := by
  obtain ⟨hlen, ⟨hwf0, hwf6⟩, hwc, ⟨b, hb, hnext, hseq⟩, ⟨hwl1, hwl6, hwlast⟩,
    hfront, htimer, htseq⟩ := hr
  have hwf_eq : r.windowfirst = ((r.windowfirst.toNat : Nat) : Int) := by omega
  set wfn := r.windowfirst.toNat with hwfn_def
  have hwfn6 : wfn < 6 := by omega
  simp only [wEntry, hwf_eq, posAt_ofNat] at hfront htseq hnm
  have hmi : firstIdx r.buffer ((wfn : Int)) r.windowcount
      (fun e => e.packet.seqnum == p.acknum && !e.acked) = none := by
    rw [firstIdx_none_iff]
    intro i hi
    simp only [wEntry, posAt_ofNat]
    by_cases hsm : (r.buffer.getD ((wfn + i) % 6) dA).packet.seqnum = p.acknum
    · rw [hsm, hnm i hi hsm]
      simp
    · have hbf : ((r.buffer.getD ((wfn + i) % 6) dA).packet.seqnum == p.acknum) = false := by
        rw [beq_eq_false_iff_ne]
        exact hsm
      rw [hbf]
      simp
  unfold A_input
  rw [if_neg (by simp [hc'])]
  dsimp only
  rw [hwf_eq]
  simp only [posAt_ofNat]
  rw [hmi]
  dsimp only
  rcases Nat.eq_zero_or_pos r.windowcount with h0 | h0
  · rw [h0]
    rw [show slideW r.buffer 0 ((wfn : Int)) = (((wfn : Int)), 0) from rfl]
    rw [show firstIdx r.buffer ((wfn : Int)) 0 (fun e => !e.acked) = none from rfl]
    have hto : r.timerOn = false := by
      rcases Bool.eq_false_or_eq_true r.timerOn with h | h
      · exact absurd (htimer.mp h) (by omega)
      · exact h
    cases hbeq : p.acknum == r.timer_seq with
    | true =>
      rw [if_pos rfl]
      dsimp only
      rw [if_pos rfl]
      exact AState.ext rfl hwf_eq.symm rfl (by dsimp only; omega) rfl rfl hto.symm
    | false =>
      rw [if_neg (by simp)]
      dsimp only
      rw [if_pos rfl]
      exact AState.ext rfl hwf_eq.symm rfl (by dsimp only; omega) rfl rfl hto.symm
  · obtain ⟨k, hk, hsl, hkack, hkun⟩ := slideW_spec r.buffer r.windowcount wfn hwfn6
    have hk0 : k = 0 := by
      by_contra hne
      have hka := hkack 0 (by omega)
      rw [hfront h0] at hka
      exact absurd hka (by simp)
    subst hk0
    rw [show (wfn + 0) % 6 = wfn by omega] at hsl
    rw [hsl]
    dsimp only
    cases hbeq : p.acknum == r.timer_seq with
    | true =>
      exfalso
      have heqq : p.acknum = r.timer_seq := by simpa using hbeq
      obtain ⟨i₁, hi₁, hack₁, hts₁⟩ := htseq h0
      have hx := hnm i₁ hi₁ (hts₁.symm.trans heqq.symm)
      rw [hack₁] at hx
      exact absurd hx (by simp)
    | false =>
      rw [if_neg (by simp)]
      dsimp only
      rw [if_neg (by omega)]
      exact AState.ext rfl hwf_eq.symm rfl (by dsimp only; omega) rfl rfl rfl

/-- **C8**: `A_input` is idempotent on duplicate acknowledgements — for
every sender state satisfying the reachable-state invariant and every
acknowledgement packet, applying `A_input` with the same packet twice gives
exactly the state after the first application (window buffer, acked flags,
windowfirst, windowcount, timer binding and timer status included). -/
theorem C8_duplicate_ack_idempotent (s : AState) (p : Pkt) (hs : SInvP s) :
    (A_input (A_input s p).1 p).1 = (A_input s p).1 := by
  by_cases hc : IsCorrupted p = true
  · have h1 : A_input s p = (s, []) := by
      unfold A_input
      rw [if_pos hc]
    rw [h1]
    dsimp only
    rw [h1]
  · have hc' : IsCorrupted p = false := by simpa using hc
    exact A_input_inert (A_input s p).1 p (SInv_input s p hs) hc'
      (A_input_acked_of_seq_match s p hs hc')

/-- Witness for C8: the sender with packet 0 outstanding receives the same
acknowledgement for 0 twice; the second delivery changes nothing. -/
theorem C8_witness :
    SInvP (A_output initA (cexMsg 0)).1 ∧
    (A_input (A_input (A_output initA (cexMsg 0)).1 (mkPkt 1 0 (List.replicate 20 48))).1
        (mkPkt 1 0 (List.replicate 20 48))).1 =
      (A_input (A_output initA (cexMsg 0)).1 (mkPkt 1 0 (List.replicate 20 48))).1 :=
  ⟨by decide,
    C8_duplicate_ack_idempotent (A_output initA (cexMsg 0)).1
      (mkPkt 1 0 (List.replicate 20 48)) (by decide)⟩

/-! ## C2: timer interrupt retransmits exactly the timed packet -/

/-- **C2**: on a timeout, (a) at most one packet is ever retransmitted;
(b) if the window packet bound to the timer (the first window slot holding
`timer_seq` unacknowledged) exists, exactly that packet is resent, the
retransmission counter is bumped and the timer restarts for it, with
`timer_seq` unchanged; (c) if every window slot holding `timer_seq` is
already acknowledged, the first unacknowledged packet in window order (if
any) becomes the new timed packet and only the timer restarts — no packet is
sent; and if no unacknowledged packet remains the state is unchanged and the
timer stays stopped. -/
theorem C2_timeout_retransmits_timed_packet (s : AState) :
    (outPkts (A_timerinterrupt s).2).length ≤ 1 ∧
    (∀ i, i < s.windowcount →
      (wEntry s.buffer s.windowfirst i).packet.seqnum = s.timer_seq →
      (wEntry s.buffer s.windowfirst i).acked = false →
      (∀ k, k < i → ¬((wEntry s.buffer s.windowfirst k).packet.seqnum = s.timer_seq ∧
        (wEntry s.buffer s.windowfirst k).acked = false)) →
      A_timerinterrupt s = ({ s with timerOn := true },
        [AAction.toLayer3 (wEntry s.buffer s.windowfirst i).packet,
          AAction.incResent, AAction.startTimer])) ∧
    ((∀ i, i < s.windowcount →
        (wEntry s.buffer s.windowfirst i).packet.seqnum = s.timer_seq →
        (wEntry s.buffer s.windowfirst i).acked = true) →
      (∀ j, j < s.windowcount → (wEntry s.buffer s.windowfirst j).acked = false →
        (∀ k, k < j → (wEntry s.buffer s.windowfirst k).acked = true) →
        A_timerinterrupt s =
          ({ s with timer_seq := (wEntry s.buffer s.windowfirst j).packet.seqnum, timerOn := true },
            [AAction.startTimer])) ∧
      ((∀ j, j < s.windowcount → (wEntry s.buffer s.windowfirst j).acked = true) →
        A_timerinterrupt s = (s, []))) := by
  refine ⟨?_, ?_, fun hall => ⟨?_, ?_⟩⟩
  · unfold A_timerinterrupt
    cases h1 : firstIdx s.buffer s.windowfirst s.windowcount
        (fun e => e.packet.seqnum == s.timer_seq && !e.acked) with
    | some i => simp [outPkts]
    | none =>
      cases h2 : firstIdx s.buffer s.windowfirst s.windowcount (fun e => !e.acked) with
      | some j => simp [outPkts]
      | none => simp [outPkts]
  · intro i hi hseq hack hmin
    have hfi : firstIdx s.buffer s.windowfirst s.windowcount
        (fun e => e.packet.seqnum == s.timer_seq && !e.acked) = some i := by
      apply firstIdx_some_of _ _ _ _ i hi
      · exact (timedPred_iff _ _).mpr ⟨hseq, hack⟩
      · intro k hk
        have hnk := hmin k hk
        rcases Bool.eq_false_or_eq_true ((wEntry s.buffer s.windowfirst k).packet.seqnum ==
            s.timer_seq && !(wEntry s.buffer s.windowfirst k).acked) with ht | hf
        · exact absurd ((timedPred_iff _ _).mp ht) hnk
        · exact hf
    unfold A_timerinterrupt
    rw [hfi]
    rfl
  · intro j hj hjack hjmin
    have hfi : firstIdx s.buffer s.windowfirst s.windowcount
        (fun e => e.packet.seqnum == s.timer_seq && !e.acked) = none := by
      rw [firstIdx_none_iff]
      intro k hk
      rcases Bool.eq_false_or_eq_true ((wEntry s.buffer s.windowfirst k).packet.seqnum ==
          s.timer_seq && !(wEntry s.buffer s.windowfirst k).acked) with ht | hf
      · obtain ⟨hs, ha⟩ := (timedPred_iff _ _).mp ht
        rw [hall k hk hs] at ha
        exact absurd ha (by simp)
      · exact hf
    have hfj : firstIdx s.buffer s.windowfirst s.windowcount (fun e => !e.acked) = some j := by
      apply firstIdx_some_of _ _ _ _ j hj
      · simp [hjack]
      · intro k hk; simp [hjmin k hk]
    unfold A_timerinterrupt
    rw [hfi, hfj]
    rfl
  · intro hall2
    have hfi : firstIdx s.buffer s.windowfirst s.windowcount
        (fun e => e.packet.seqnum == s.timer_seq && !e.acked) = none := by
      rw [firstIdx_none_iff]
      intro k hk
      simp [hall2 k hk]
    have hfj : firstIdx s.buffer s.windowfirst s.windowcount (fun e => !e.acked) = none := by
      rw [firstIdx_none_iff]
      intro k hk
      simp [hall2 k hk]
    unfold A_timerinterrupt
    rw [hfi, hfj]

/-- Witness for C2: a sender with two outstanding packets (seq 0 and 1),
timer bound to seq 0 — the timeout resends exactly packet 0 and restarts the
timer. -/
theorem C2_witness :
    (wEntry (A_output (A_output initA (cexMsg 0)).1 (cexMsg 1)).1.buffer
        (A_output (A_output initA (cexMsg 0)).1 (cexMsg 1)).1.windowfirst 0).packet.seqnum =
      (A_output (A_output initA (cexMsg 0)).1 (cexMsg 1)).1.timer_seq ∧
    A_timerinterrupt (A_output (A_output initA (cexMsg 0)).1 (cexMsg 1)).1 =
      ({ (A_output (A_output initA (cexMsg 0)).1 (cexMsg 1)).1 with timerOn := true },
        [AAction.toLayer3 (wEntry (A_output (A_output initA (cexMsg 0)).1 (cexMsg 1)).1.buffer
            (A_output (A_output initA (cexMsg 0)).1 (cexMsg 1)).1.windowfirst 0).packet,
          AAction.incResent, AAction.startTimer]) :=
  ⟨by decide,
    (C2_timeout_retransmits_timed_packet (A_output (A_output initA (cexMsg 0)).1 (cexMsg 1)).1).2.1
      0 (by decide) (by decide) (by decide) (fun k hk => by omega)⟩

/-! ## C4: corruption is treated exactly like loss -/

/-- **C4**: a corrupted acknowledgement leaves the whole sender state
unchanged and emits nothing; a corrupted data packet leaves the whole
receiver state unchanged, delivers nothing, and sends no acknowledgement. -/
theorem C4_corrupted_packets_ignored (s : AState) (t : BState) (p q : Pkt)
    (hp : IsCorrupted p = true) (hq : IsCorrupted q = true) :
    A_input s p = (s, []) ∧ B_input t q = (t, []) := by
  constructor
  · unfold A_input; simp [hp]
  · unfold B_input; simp [hq]

/-- Witness for C4 at a concrete corrupted packet (stored checksum `999`,
real checksum `3`). -/
theorem C4_witness :
    IsCorrupted { seqnum := 1, acknum := 2, checksum := 999, payload := [] } = true ∧
    (A_input initA { seqnum := 1, acknum := 2, checksum := 999, payload := [] } = (initA, []) ∧
      B_input initB { seqnum := 1, acknum := 2, checksum := 999, payload := [] } = (initB, [])) :=
  ⟨by decide,
    C4_corrupted_packets_ignored initA initB
      { seqnum := 1, acknum := 2, checksum := 999, payload := [] }
      { seqnum := 1, acknum := 2, checksum := 999, payload := [] }
      (by decide) (by decide)⟩

/-! ## C6: every uncorrupted data packet is acknowledged -/

/-- **C6**: for every uncorrupted packet arriving at B, `B_input` sends
exactly one acknowledgement, whose `acknum` equals the received `seqnum`,
whether or not the packet is in the receive window; and for an out-of-window
packet (`offset ≥ WINDOWSIZE`) the receive buffer and window position are
untouched and nothing is delivered to the application. -/
theorem C6_ack_every_uncorrupted (t : BState) (p : Pkt)
    (hp : IsCorrupted p = false) :
    ackPkts (B_input t p).2 = [mkPkt t.nextseqnum p.seqnum (List.replicate 20 48)] ∧
    (mkPkt t.nextseqnum p.seqnum (List.replicate 20 48)).acknum = p.seqnum ∧
    (¬ (p.seqnum - t.windowfirst + 12).tmod 12 < 6 →
      (B_input t p).1.buffer = t.buffer ∧
      (B_input t p).1.windowfirst = t.windowfirst ∧
      payloadsOf (B_input t p).2 = []) := by
  unfold B_input
  simp only [hp, Bool.false_eq_true, if_false]
  refine ⟨?_, rfl, ?_⟩
  · rw [ackPkts_append]
    split
    · rw [deliverLoop_no_acks]; rfl
    · rfl
  · intro hoff
    rw [if_neg hoff]
    refine ⟨rfl, rfl, ?_⟩
    rw [payloadsOf_append]
    rfl

/-- Witness for C6: concrete receiver state `initB` and the in-window data
packet with seqnum 0, plus (separately instantiated inside the proof) the
out-of-window case is exercised by the hypothesis-free first conjuncts. -/
theorem C6_witness :
    IsCorrupted (mkPkt 11 NOTINUSE (List.replicate 20 5)) = false ∧
    (ackPkts (B_input initB (mkPkt 11 NOTINUSE (List.replicate 20 5))).2 =
        [mkPkt initB.nextseqnum (11 : Int) (List.replicate 20 48)] ∧
      (mkPkt initB.nextseqnum (11 : Int) (List.replicate 20 48)).acknum = (11 : Int) ∧
      (¬ ((11 : Int) - initB.windowfirst + 12).tmod 12 < 6 →
        (B_input initB (mkPkt 11 NOTINUSE (List.replicate 20 5))).1.buffer = initB.buffer ∧
        (B_input initB (mkPkt 11 NOTINUSE (List.replicate 20 5))).1.windowfirst = initB.windowfirst ∧
        payloadsOf (B_input initB (mkPkt 11 NOTINUSE (List.replicate 20 5))).2 = [])) :=
  ⟨by decide, C6_ack_every_uncorrupted initB (mkPkt 11 NOTINUSE (List.replicate 20 5)) (by decide)⟩

/-! ## C7: window-full submissions are rejected, later submissions succeed -/

theorem A_output_accepts (s : AState) (m : List Int) (h : s.windowcount < 6) :
    (A_output s m).1.windowcount = s.windowcount + 1 ∧
    outPkts (A_output s m).2 = [mkPkt s.nextseqnum NOTINUSE m] := by
  unfold A_output
  rw [if_pos h]
  dsimp only
  constructor
  · rfl
  · split <;> rfl

/-- **C7**: a submission against a full window is rejected with the sender
state exactly unchanged and only the window-full signal raised; a submission
against a non-full window (in particular after an acknowledgement has slid
the window) builds and sends exactly the new packet and grows the window by
one. -/
theorem C7_window_full_rejected (s : AState) (m : List Int) (p : Pkt) :
    (¬ s.windowcount < 6 → A_output s m = (s, [AAction.incWindowFull])) ∧
    (s.windowcount < 6 →
      (A_output s m).1.windowcount = s.windowcount + 1 ∧
      outPkts (A_output s m).2 = [mkPkt s.nextseqnum NOTINUSE m]) ∧
    ((A_input s p).1.windowcount < 6 →
      (A_output (A_input s p).1 m).1.windowcount = (A_input s p).1.windowcount + 1 ∧
      outPkts (A_output (A_input s p).1 m).2 =
        [mkPkt (A_input s p).1.nextseqnum NOTINUSE m]) := by
  refine ⟨?_, fun h => A_output_accepts s m h, fun h => A_output_accepts _ m h⟩
  intro h
  unfold A_output
  rw [if_neg h]

/-- Witness for C7: a full window (six outstanding packets) rejects, and
after the acknowledgement for packet 0 arrives and the window slides, a
further submission succeeds. -/
theorem C7_witness :
    ¬ (A_output (A_output (A_output (A_output (A_output (A_output initA
        (cexMsg 0)).1 (cexMsg 1)).1 (cexMsg 2)).1 (cexMsg 3)).1 (cexMsg 4)).1
        (cexMsg 5)).1.windowcount < 6 ∧
    (A_output (A_output (A_output (A_output (A_output (A_output (A_output initA
        (cexMsg 0)).1 (cexMsg 1)).1 (cexMsg 2)).1 (cexMsg 3)).1 (cexMsg 4)).1
        (cexMsg 5)).1 (cexMsg 6)) =
      ((A_output (A_output (A_output (A_output (A_output (A_output initA
        (cexMsg 0)).1 (cexMsg 1)).1 (cexMsg 2)).1 (cexMsg 3)).1 (cexMsg 4)).1
        (cexMsg 5)).1, [AAction.incWindowFull]) ∧
    (A_input (A_output (A_output (A_output (A_output (A_output (A_output initA
        (cexMsg 0)).1 (cexMsg 1)).1 (cexMsg 2)).1 (cexMsg 3)).1 (cexMsg 4)).1
        (cexMsg 5)).1 (mkPkt 1 0 (List.replicate 20 48))).1.windowcount < 6 ∧
    outPkts (A_output (A_input (A_output (A_output (A_output (A_output (A_output
        (A_output initA (cexMsg 0)).1 (cexMsg 1)).1 (cexMsg 2)).1 (cexMsg 3)).1
        (cexMsg 4)).1 (cexMsg 5)).1 (mkPkt 1 0 (List.replicate 20 48))).1 (cexMsg 6)).2 =
      [mkPkt (A_input (A_output (A_output (A_output (A_output (A_output (A_output initA
        (cexMsg 0)).1 (cexMsg 1)).1 (cexMsg 2)).1 (cexMsg 3)).1 (cexMsg 4)).1
        (cexMsg 5)).1 (mkPkt 1 0 (List.replicate 20 48))).1.nextseqnum NOTINUSE (cexMsg 6)] :=
  ⟨by decide,
    (C7_window_full_rejected _ (cexMsg 6) (mkPkt 1 0 (List.replicate 20 48))).1 (by decide),
    by decide,
    ((C7_window_full_rejected _ (cexMsg 6) (mkPkt 1 0 (List.replicate 20 48))).2.2 (by decide)).2⟩

/-! ## C9: what `A_init` actually resets -/

/-- **C9 counterexample**: `A_init` issues no `stoptimer` call — applied to
a state whose timer is running, the timer is still running afterwards, so
`A_init` does not "stop any timer" as the claim states. -/
theorem C9_init_counterexample :
    ({ initA with timerOn := true } : AState).timerOn = true ∧
    (A_init { initA with timerOn := true }).timerOn = true := by
  constructor <;> rfl

/-- **C9 (amended)**: `A_init` resets `nextseqnum = 0`, `windowfirst = 0`
(the base), `windowlast = -1`, `windowcount = 0` (empty window), clears all
acknowledged flags and the timed-packet binding (`timer_seq = -1`), but it
performs no `stoptimer` call: the timer state is untouched (it is invoked
only before any other routine, when no timer is running). -/
theorem C9_init_resets_state (s : AState) :
    (A_init s).nextseqnum = 0 ∧ (A_init s).windowfirst = 0 ∧
    (A_init s).windowlast = -1 ∧ (A_init s).windowcount = 0 ∧
    (A_init s).timer_seq = -1 ∧
    (∀ i, ((A_init s).buffer.getD i dA).acked = false) ∧
    (A_init s).timerOn = s.timerOn := by
  refine ⟨rfl, rfl, rfl, rfl, rfl, ?_, rfl⟩
  intro i
  show ((s.buffer.map fun e => { packet := e.packet, acked := false }).getD i dA).acked = false
  rw [List.getD_eq_getElem?_getD, List.getElem?_map]
  cases s.buffer[i]? <;> rfl

/-! ## C10: the sender reads only the acknum of an uncorrupted ACK -/

/-- **C10**: for any sender state, two uncorrupted acknowledgement packets
with equal `acknum` produce identical resulting state and identical
actions — `A_input` never reads the ACK's seqnum or payload beyond the
checksum test. -/
theorem C10_ack_depends_only_on_acknum (s : AState) (p q : Pkt)
    (hp : IsCorrupted p = false) (hq : IsCorrupted q = false)
    (h : p.acknum = q.acknum) :
    A_input s p = A_input s q := by
  unfold A_input
  rw [hp, hq, h]

/-- Witness for C10: two concrete uncorrupted ACK packets differing in
seqnum and payload but sharing `acknum = 0` act identically on a reachable
sender state. -/
theorem C10_witness :
    IsCorrupted (mkPkt 1 0 (List.replicate 20 48)) = false ∧
    IsCorrupted (mkPkt 0 0 [9, 9]) = false ∧
    (mkPkt 1 0 (List.replicate 20 48)).acknum = (mkPkt 0 0 [9, 9]).acknum ∧
    A_input (A_output initA (cexMsg 0)).1 (mkPkt 1 0 (List.replicate 20 48)) =
      A_input (A_output initA (cexMsg 0)).1 (mkPkt 0 0 [9, 9]) :=
  ⟨by decide, by decide, by decide,
    C10_ack_depends_only_on_acknum (A_output initA (cexMsg 0)).1
      (mkPkt 1 0 (List.replicate 20 48)) (mkPkt 0 0 [9, 9])
      (by decide) (by decide) (by decide)⟩

/-! ## Toolkit for the FIFO-model proof -/

theorem getD_tail {α : Type} (l : List α) (n : Nat) (d : α) :
    l.tail.getD n d = l.getD (n + 1) d := by
  cases l <;> rfl

theorem getD_append_left {α : Type} (l l2 : List α) (n : Nat) (d : α) (h : n < l.length) :
    (l ++ l2).getD n d = l.getD n d :=
  List.getD_append l l2 d n h

theorem getD_snoc_length {α : Type} (l : List α) (x : α) (d : α) :
    (l ++ [x]).getD l.length d = x := by
  simp [List.getD_eq_getElem?_getD, List.getElem?_append]

theorem forall₂_snoc {α β : Type} {R : α → β → Prop} {js : List α} {l : List β}
    (h : List.Forall₂ R js l) (j : α) (q : β) (hjq : R j q) :
    List.Forall₂ R (js ++ [j]) (l ++ [q]) := by
  induction h with
  | nil => exact List.Forall₂.cons hjq List.Forall₂.nil
  | cons h1 _ ih => exact List.Forall₂.cons h1 ih

theorem pairwise_snoc {α : Type} {R : α → α → Prop} {js : List α} {j : α}
    (h : List.Pairwise R js) (hall : ∀ a ∈ js, R a j) : List.Pairwise R (js ++ [j]) := by
  refine List.pairwise_append.mpr ⟨h, List.pairwise_singleton R j, ?_⟩
  intro a ha b hb
  rw [List.mem_singleton] at hb
  subst hb
  exact hall a ha

theorem A_input_corrupted (s : AState) (p : Pkt) (h : IsCorrupted p = true) :
    A_input s p = (s, []) := by
  unfold A_input
  rw [if_pos h]

theorem B_input_corrupted (t : BState) (p : Pkt) (h : IsCorrupted p = true) :
    B_input t p = (t, []) := by
  unfold B_input
  rw [if_pos h]

theorem mkPkt_not_corrupted (a b : Int) (pl : List Int) :
    IsCorrupted (mkPkt a b pl) = false := by
  simp [mkPkt, IsCorrupted, ComputeChecksum]

theorem packetFor_not_corrupted (sub : List (List Int)) (j : Nat) :
    IsCorrupted (packetFor sub j) = false :=
  mkPkt_not_corrupted _ _ _

theorem packetFor_seqnum (sub : List (List Int)) (j : Nat) :
    (packetFor sub j).seqnum = ((j % 12 : Nat) : Int) := rfl

theorem packetFor_payload (sub : List (List Int)) (j : Nat) :
    (packetFor sub j).payload = msgAt sub j := rfl

theorem packetFor_append (sub : List (List Int)) (m : List Int) (j : Nat)
    (h : j < sub.length) : packetFor (sub ++ [m]) j = packetFor sub j := by
  unfold packetFor msgAt
  rw [getD_append_left _ _ _ _ h]

theorem packetFor_snoc_self (sub : List (List Int)) (m : List Int) :
    packetFor (sub ++ [m]) sub.length =
      mkPkt ((sub.length % 12 : Nat) : Int) NOTINUSE m := by
  unfold packetFor msgAt
  rw [getD_snoc_length]

theorem take_extend (sub : List (List Int)) :
    ∀ (r D : Nat), D + r ≤ sub.length →
      sub.take (D + r) =
        sub.take D ++ (List.range r).map (fun kk => sub.getD (D + kk) []) := by
  intro r
  induction r with
  | zero => intro D _; simp
  | succ n ih =>
    intro D h
    have h1 := ih D (by omega)
    rw [show D + (n + 1) = (D + n) + 1 by omega, List.take_succ, h1,
      List.range_succ, List.map_append]
    simp only [List.map_cons, List.map_nil, List.append_assoc]
    refine congrArg _ (congrArg _ ?_)
    have hlt : D + n < sub.length := by omega
    simp [List.getD_eq_getElem?_getD, List.getElem?_eq_getElem hlt]

theorem countP_received_le (buf : List BEntry) (h : buf.length = 6) :
    List.countP (fun e => e.received) buf ≤ 6 := by
  calc List.countP (fun e => e.received) buf ≤ buf.length := List.countP_le_length _
  _ = 6 := h

theorem offset_tmod_eq (j D : Nat) :
    (.tmod ((((j % 12 : Nat)) : Int) - (((D % 12 : Nat)) : Int) + 12) 12) =
      (((j % 12 + 12 - D % 12) % 12 : Nat) : Int) := by
  have h0 : (0 : Int) ≤ (((j % 12 : Nat)) : Int) - (((D % 12 : Nat)) : Int) + 12 := by
    omega
  rw [tmod_twelve_nonneg _ h0]
  omega

theorem deliverLoop_spec :
    ∀ (fuel : Nat) (buf : List BEntry) (Dn : Nat),
      buf.length = 6 →
      List.countP (fun e => e.received) buf ≤ fuel →
      ∃ r, r ≤ List.countP (fun e => e.received) buf ∧
        (∀ c, c < r → (buf.getD c dB).received = true) ∧
        (r < 6 → (buf.getD r dB).received = false) ∧
        (deliverLoop fuel buf (((Dn % 12 : Nat)) : Int)).1.length = 6 ∧
        (∀ c, c + r < 6 →
          (deliverLoop fuel buf (((Dn % 12 : Nat)) : Int)).1.getD c dB = buf.getD (c + r) dB) ∧
        (∀ c, c < 6 → 6 ≤ c + r →
          ((deliverLoop fuel buf (((Dn % 12 : Nat)) : Int)).1.getD c dB).received = false) ∧
        (deliverLoop fuel buf (((Dn % 12 : Nat)) : Int)).2.1 = (((Dn + r) % 12 : Nat) : Int) ∧
        payloadsOf (deliverLoop fuel buf (((Dn % 12 : Nat)) : Int)).2.2 =
          (List.range r).map (fun kk => (buf.getD kk dB).packet.payload) ∧
        ackPkts (deliverLoop fuel buf (((Dn % 12 : Nat)) : Int)).2.2 = [] := by
  intro fuel
  induction fuel with
  | zero =>
    intro buf Dn hlen hcnt
    have hc0 : List.countP (fun e => e.received) buf = 0 := by omega
    refine ⟨0, by omega, by omega, ?_, hlen, ?_, by omega,
      by show (((Dn % 12 : Nat)) : Int) = (((Dn + 0) % 12 : Nat) : Int); omega, rfl, rfl⟩
    · intro _
      have hmem : buf.getD 0 dB ∈ buf := by
        rw [List.getD_eq_getElem?_getD, List.getElem?_eq_getElem (by omega)]
        exact List.getElem_mem _
      have := List.countP_eq_zero.mp hc0 _ hmem
      simpa using this
    · intro c _
      rfl
  | succ n ih =>
    intro buf Dn hlen hcnt
    cases hrc : (buf.getD 0 dB).received with
    | false =>
      have hstep : deliverLoop (Nat.succ n) buf (((Dn % 12 : Nat)) : Int) =
          (buf, (((Dn % 12 : Nat)) : Int), []) := by
        unfold deliverLoop
        rw [hrc]
        simp
      rw [hstep]
      refine ⟨0, by omega, by omega, fun _ => hrc, hlen, ?_, by omega,
        by show (((Dn % 12 : Nat)) : Int) = (((Dn + 0) % 12 : Nat) : Int); omega, rfl, rfl⟩
      intro c _
      rfl
    | true =>
      obtain ⟨hd, tl, hbuf⟩ : ∃ hd tl, buf = hd :: tl := by
        cases buf with
        | nil => simp at hlen
        | cons a l => exact ⟨a, l, rfl⟩
      have htail_len : buf.tail.length = 5 := by
        rw [List.length_tail, hlen]
      have hcnt_buf : List.countP (fun e => e.received) buf =
          List.countP (fun e => e.received) buf.tail + 1 := by
        rw [hbuf, List.countP_cons]
        have : hd.received = true := by rw [hbuf] at hrc; exact hrc
        simp [this]
      have hcnt1 : List.countP (fun e => e.received)
          (buf.tail ++ [{ packet := (buf.getD 5 dB).packet, received := false }]) =
          List.countP (fun e => e.received) buf - 1 := by
        rw [List.countP_append]
        have h1 : List.countP (fun e => e.received)
            [({ packet := (buf.getD 5 dB).packet, received := false } : BEntry)] = 0 := by
          simp [List.countP_cons]
        omega
      have hlen1 : (buf.tail ++
          [({ packet := (buf.getD 5 dB).packet, received := false } : BEntry)]).length = 6 := by
        rw [List.length_append, htail_len]
        rfl
      have hb1 : ∀ c, c < 5 →
          (buf.tail ++ [({ packet := (buf.getD 5 dB).packet, received := false } : BEntry)]).getD
            c dB = buf.getD (c + 1) dB := by
        intro c hc
        rw [getD_append_left _ _ _ _ (by omega), getD_tail]
      have hb1last : (buf.tail ++
          [({ packet := (buf.getD 5 dB).packet, received := false } : BEntry)]).getD 5 dB =
          { packet := (buf.getD 5 dB).packet, received := false } := by
        rw [show (5 : Nat) = buf.tail.length by omega, getD_snoc_length]
      obtain ⟨r1, hr1c, hr1rec, hr1stop, hlen2, hslot2, hclr2, hwf2, hpay2, hack2⟩ :=
        ih (buf.tail ++ [{ packet := (buf.getD 5 dB).packet, received := false }]) (Dn + 1)
          hlen1 (by omega)
      have hr1le : r1 ≤ 5 := by
        have := countP_received_le buf hlen
        omega
      have hstep : deliverLoop (Nat.succ n) buf (((Dn % 12 : Nat)) : Int) =
          ((deliverLoop n (buf.tail ++ [{ packet := (buf.getD 5 dB).packet, received := false }])
              ((((Dn + 1) % 12 : Nat)) : Int)).1,
            (deliverLoop n (buf.tail ++ [{ packet := (buf.getD 5 dB).packet, received := false }])
              ((((Dn + 1) % 12 : Nat)) : Int)).2.1,
            BAction.toLayer5 (buf.getD 0 dB).packet.payload :: BAction.incDelivered ::
              (deliverLoop n (buf.tail ++
                [{ packet := (buf.getD 5 dB).packet, received := false }])
                ((((Dn + 1) % 12 : Nat)) : Int)).2.2) := by
        have hwfarg : ((((Dn % 12 : Nat)) : Int) + 1).tmod 12 = (((Dn + 1) % 12 : Nat) : Int) := by
          rw [add_one_tmod_twelve]
          omega
        conv_lhs => unfold deliverLoop
        rw [hrc, if_pos rfl, hwfarg]
      rw [hstep]
      refine ⟨r1 + 1, by omega, ?_, ?_, hlen2, ?_, ?_, ?_, ?_, ?_⟩
      · intro c hc
        cases c with
        | zero => exact hrc
        | succ c1 =>
          have := hr1rec c1 (by omega)
          rw [hb1 c1 (by omega)] at this
          exact this
      · intro hstop
        have := hr1stop (by omega)
        rw [hb1 r1 (by omega)] at this
        exact this
      · intro c hc
        have h1 := hslot2 c (by omega)
        rw [hb1 (c + r1) (by omega)] at h1
        rw [show c + (r1 + 1) = c + r1 + 1 by omega]
        exact h1
      · intro c hc6 hge
        rcases Nat.lt_or_ge (c + r1) 6 with hlt | hge2
        · have hceq : c + r1 = 5 := by omega
          have h1 := hslot2 c (by omega)
          rw [hceq, hb1last] at h1
          rw [h1]
        · exact hclr2 c hc6 hge2
      · rw [hwf2]
        omega
      · show payloadsOf (BAction.toLayer5 (buf.getD 0 dB).packet.payload ::
          BAction.incDelivered :: _) = _
        rw [show ∀ (x : List Int) (l : List BAction),
            payloadsOf (BAction.toLayer5 x :: BAction.incDelivered :: l) = x :: payloadsOf l
          from fun x l => rfl]
        rw [hpay2, List.range_succ_eq_map, List.map_cons, List.map_map]
        refine congrArg₂ _ rfl ?_
        refine List.map_congr_left ?_
        intro kk hkk
        rw [List.mem_range] at hkk
        show (_ : BEntry).packet.payload = (buf.getD (Nat.succ kk) dB).packet.payload
        rw [hb1 kk (by omega)]
      · show ackPkts (BAction.toLayer5 (buf.getD 0 dB).packet.payload ::
          BAction.incDelivered :: _) = _
        rw [show ∀ (x : List Int) (l : List BAction),
            ackPkts (BAction.toLayer5 x :: BAction.incDelivered :: l) = ackPkts l
          from fun x l => rfl]
        exact hack2

theorem getD_replicate_dB (c : Nat) : (List.replicate 6 dB).getD c dB = dB := by
  rw [List.getD_eq_getElem?_getD, List.getElem?_replicate]
  split <;> rfl

theorem forall₂_tail {α β : Type} {R : α → β → Prop} {l1 : List α} {l2 : List β}
    (h : List.Forall₂ R l1 l2) : List.Forall₂ R l1.tail l2.tail := by
  cases h with
  | nil => exact List.Forall₂.nil
  | cons h1 h2 => exact h2

theorem pairwise_tail {α : Type} {R : α → α → Prop} {l : List α}
    (h : List.Pairwise R l) : List.Pairwise R l.tail := by
  cases h with
  | nil => exact List.Pairwise.nil
  | cons _ h2 => exact h2

theorem mem_tail {α : Type} {a : α} {l : List α} (h : a ∈ l.tail) : a ∈ l := by
  cases l with
  | nil => exact h
  | cons b t => exact List.mem_cons_of_mem b h

theorem KB_lt_S (s : FSys) (js gs : List Nat) (h : FInv s js gs) (kk : Nat)
    (hkk : KB s.B (Ddel s) kk) : kk < Ssub s := by
  rcases hkk with h1 | ⟨c, hc, hrec, hkeq⟩
  · have := h.hDS
    omega
  · have := (h.hBslot c hc hrec).2
    omega

theorem FInv_init : FInv initF [] [] := by
  refine ⟨by decide, by decide, by decide, by decide, by decide, by decide, by decide,
    by decide, by decide, ?_, ?_, by decide, by decide, ?_, by decide, rfl, by decide,
    by decide, List.Forall₂.nil, ?_, ?_, ?_, ?_, List.Pairwise.nil,
    List.Forall₂.nil, ?_, ?_, ?_, List.Pairwise.nil⟩
  · intro i hi
    rw [show initF.A.windowcount = 0 from rfl] at hi
    omega
  · intro i hi
    rw [show initF.A.windowcount = 0 from rfl] at hi
    omega
  · intro c hc hrec
    rw [show initF.B.buffer = List.replicate 6 dB from rfl, getD_replicate_dB] at hrec
    exact absurd hrec (by decide)
  · intro j hj
    exact absurd hj (List.not_mem_nil j)
  · intro j hj
    exact absurd hj (List.not_mem_nil j)
  · intro j hj
    exact absurd hj (List.not_mem_nil j)
  · intro j hj
    exact absurd hj (List.not_mem_nil j)
  · intro g hg
    exact absurd hg (List.not_mem_nil g)
  · intro g hg
    exact absurd hg (List.not_mem_nil g)
  · intro g hg
    exact absurd hg (List.not_mem_nil g)

theorem FInv_dropAB (s : FSys) (js gs : List Nat) (h : FInv s js gs) :
    FInv (fstep s FEv.dropAB) js.tail gs :=
  ⟨h.hWle6, h.hWleS, h.hAlen, h.hAwf0, h.hAwf6, h.hAnext, h.hAwl1, h.hAwl6, h.hAwlast,
    h.hAwin, h.hAackKB, h.hBlen, h.hBwf, h.hBslot, h.hB0, h.hDel, h.hDS, h.hbaseD,
    forall₂_tail h.hjs,
    fun j hj => h.hjsS j (mem_tail hj),
    fun j hj => h.hjsKB j (mem_tail hj),
    fun j hj => h.hjsAck j (mem_tail hj),
    fun j hj => h.hjsBase j (mem_tail hj),
    pairwise_tail h.hjsPair,
    h.hgs, h.hgsKB, h.hgsAck, h.hgsBase, h.hgsPair⟩

theorem FInv_dropBA (s : FSys) (js gs : List Nat) (h : FInv s js gs) :
    FInv (fstep s FEv.dropBA) js gs.tail :=
  ⟨h.hWle6, h.hWleS, h.hAlen, h.hAwf0, h.hAwf6, h.hAnext, h.hAwl1, h.hAwl6, h.hAwlast,
    h.hAwin, h.hAackKB, h.hBlen, h.hBwf, h.hBslot, h.hB0, h.hDel, h.hDS, h.hbaseD,
    h.hjs, h.hjsS, h.hjsKB, h.hjsAck, h.hjsBase, h.hjsPair,
    forall₂_tail h.hgs,
    fun g hg => h.hgsKB g (mem_tail hg),
    fun g hg => h.hgsAck g (mem_tail hg),
    fun g hg => h.hgsBase g (mem_tail hg),
    pairwise_tail h.hgsPair⟩

theorem fstep_corrAB (s : FSys) (q : Pkt) :
    fstep s (FEv.corrAB q) = fstep s FEv.dropAB ∨ fstep s (FEv.corrAB q) = s := by
  cases hch : s.chanAB with
  | nil =>
    right
    show fstep s (FEv.corrAB q) = s
    unfold fstep
    rw [hch]
  | cons p rest =>
    by_cases hcq : IsCorrupted q = true
    · left
      show fstep s (FEv.corrAB q) = fstep s FEv.dropAB
      unfold fstep
      rw [hch]
      dsimp only
      rw [if_pos hcq, B_input_corrupted s.B q hcq]
      dsimp only
      rw [show ackPkts [] = [] from rfl, show payloadsOf [] = [] from rfl,
        List.append_nil, List.append_nil]
      rfl
    · right
      show fstep s (FEv.corrAB q) = s
      unfold fstep
      rw [hch]
      dsimp only
      rw [if_neg hcq]

theorem fstep_corrBA (s : FSys) (q : Pkt) :
    fstep s (FEv.corrBA q) = fstep s FEv.dropBA ∨ fstep s (FEv.corrBA q) = s := by
  cases hch : s.chanBA with
  | nil =>
    right
    show fstep s (FEv.corrBA q) = s
    unfold fstep
    rw [hch]
  | cons p rest =>
    by_cases hcq : IsCorrupted q = true
    · left
      show fstep s (FEv.corrBA q) = fstep s FEv.dropBA
      unfold fstep
      rw [hch]
      dsimp only
      rw [if_pos hcq, A_input_corrupted s.A q hcq]
      dsimp only
      rw [show outPkts [] = [] from rfl, List.append_nil]
      rfl
    · right
      show fstep s (FEv.corrBA q) = s
      unfold fstep
      rw [hch]
      dsimp only
      rw [if_neg hcq]

theorem FInv_timeoutA (s : FSys) (js gs : List Nat) (h : FInv s js gs) :
    ∃ js', FInv (fstep s FEv.timeoutA) js' gs := by
  have hb : baseF s = s.submitted.length - s.A.windowcount := rfl
  have hsS : Ssub s = s.submitted.length := rfl
  have hW6 := h.hWle6
  have hWS := h.hWleS
  by_cases hton : s.A.timerOn = true
  · unfold fstep
    rw [if_pos hton]
    dsimp only
    unfold A_timerinterrupt
    dsimp only
    cases hmi : firstIdx s.A.buffer s.A.windowfirst s.A.windowcount
        (fun e => e.packet.seqnum == s.A.timer_seq && !e.acked) with
    | some i =>
      dsimp only
      rw [show outPkts [AAction.toLayer3
          (s.A.buffer.getD (posAt s.A.windowfirst i) dA).packet,
          AAction.incResent, AAction.startTimer] =
        [(s.A.buffer.getD (posAt s.A.windowfirst i) dA).packet] from rfl]
      obtain ⟨hiw, _, _⟩ := firstIdx_some _ _ _ _ i hmi
      have hpkt : (s.A.buffer.getD (posAt s.A.windowfirst i) dA).packet =
          packetFor s.submitted (baseF s + i) := h.hAwin i hiw
      refine ⟨js ++ [baseF s + i], h.hWle6, h.hWleS, h.hAlen, h.hAwf0, h.hAwf6, h.hAnext, h.hAwl1, h.hAwl6,
        h.hAwlast, h.hAwin, h.hAackKB, h.hBlen, h.hBwf, h.hBslot, h.hB0, h.hDel, h.hDS,
        h.hbaseD, ?_, ?_, ?_, ?_, ?_, ?_,
        h.hgs, h.hgsKB, h.hgsAck, h.hgsBase, h.hgsPair⟩
      · exact forall₂_snoc h.hjs _ _ hpkt
      · intro j hj
        rcases List.mem_append.mp hj with hj1 | hj2
        · exact h.hjsS j hj1
        · rw [List.mem_singleton] at hj2
          subst hj2
          simp only [Ssub, baseF]
          omega
      · intro j hj kk hkk
        rcases List.mem_append.mp hj with hj1 | hj2
        · exact h.hjsKB j hj1 kk hkk
        · rw [List.mem_singleton] at hj2
          subst hj2
          have hks := KB_lt_S s js gs h kk hkk
          simp only [Ssub, baseF] at hks ⊢
          dsimp only at hkk ⊢
          omega
      · intro j hj i2 hi2 hack
        rcases List.mem_append.mp hj with hj1 | hj2
        · exact h.hjsAck j hj1 i2 hi2 hack
        · rw [List.mem_singleton] at hj2
          subst hj2
          simp only [baseF]
          dsimp only at hi2
          omega
      · intro j hj
        rcases List.mem_append.mp hj with hj1 | hj2
        · exact h.hjsBase j hj1
        · rw [List.mem_singleton] at hj2
          subst hj2
          simp only [baseF]
          omega
      · refine pairwise_snoc h.hjsPair ?_
        intro a ha
        have := h.hjsS a ha
        simp only [Ssub, baseF] at *
        omega
    | none =>
      dsimp only
      cases hfu : firstIdx s.A.buffer s.A.windowfirst s.A.windowcount (fun e => !e.acked) with
      | some j =>
        dsimp only
        rw [show outPkts [AAction.startTimer] = [] from rfl, List.append_nil]
        exact ⟨js, h.hWle6, h.hWleS, h.hAlen, h.hAwf0, h.hAwf6, h.hAnext, h.hAwl1, h.hAwl6,
          h.hAwlast, h.hAwin, h.hAackKB, h.hBlen, h.hBwf, h.hBslot, h.hB0, h.hDel, h.hDS,
          h.hbaseD, h.hjs, h.hjsS, h.hjsKB, h.hjsAck, h.hjsBase, h.hjsPair,
          h.hgs, h.hgsKB, h.hgsAck, h.hgsBase, h.hgsPair⟩
      | none =>
        dsimp only
        rw [show outPkts ([] : List AAction) = [] from rfl, List.append_nil]
        exact ⟨js, h.hWle6, h.hWleS, h.hAlen, h.hAwf0, h.hAwf6, h.hAnext, h.hAwl1, h.hAwl6,
          h.hAwlast, h.hAwin, h.hAackKB, h.hBlen, h.hBwf, h.hBslot, h.hB0, h.hDel, h.hDS,
          h.hbaseD, h.hjs, h.hjsS, h.hjsKB, h.hjsAck, h.hjsBase, h.hjsPair,
          h.hgs, h.hgsKB, h.hgsAck, h.hgsBase, h.hgsPair⟩
  · refine ⟨js, ?_⟩
    unfold fstep
    rw [if_neg hton]
    exact h

theorem forall₂_imp_mem {α β : Type} {R S : α → β → Prop} {l1 : List α} {l2 : List β}
    (h : List.Forall₂ R l1 l2) (himp : ∀ a ∈ l1, ∀ b, R a b → S a b) :
    List.Forall₂ S l1 l2 := by
  induction h with
  | nil => exact List.Forall₂.nil
  | cons h1 _ ih =>
    refine List.Forall₂.cons (himp _ (List.mem_cons_self _ _) _ h1) ?_
    exact ih fun a ha b hb => himp a (List.mem_cons_of_mem _ ha) b hb

theorem FInv_submit_core (s : FSys) (js gs : List Nat) (m : List Int)
    (tseq : Int) (tOn : Bool) (h : FInv s js gs) (hacc : s.A.windowcount < 6) :
    FInv { s with
      A := { buffer := s.A.buffer.set ((s.A.windowlast + 1).tmod 6).toNat
               { packet := mkPkt s.A.nextseqnum NOTINUSE m, acked := false },
             windowfirst := s.A.windowfirst,
             windowlast := (s.A.windowlast + 1).tmod 6,
             windowcount := s.A.windowcount + 1,
             nextseqnum := (s.A.nextseqnum + 1).tmod 12,
             timer_seq := tseq, timerOn := tOn },
      chanAB := s.chanAB ++ [mkPkt s.A.nextseqnum NOTINUSE m],
      submitted := s.submitted ++ [m] }
      (js ++ [s.submitted.length]) gs := by
  have hW6 := h.hWle6
  have hWS := h.hWleS
  have hbD := h.hbaseD
  have hDS := h.hDS
  simp only [baseF, Ddel, Ssub] at hbD hDS
  have hwf0 := h.hAwf0
  have hwf6 := h.hAwf6
  have hwl1 := h.hAwl1
  have hwf_eq : s.A.windowfirst = ((s.A.windowfirst.toNat : Nat) : Int) := by omega
  set wfn := s.A.windowfirst.toNat with hwfn_def
  have hwfn6 : wfn < 6 := by omega
  have hq6 : (wfn + s.A.windowcount) % 6 < 6 := Nat.mod_lt _ (by omega)
  have hposq : posAt s.A.windowfirst s.A.windowcount = (wfn + s.A.windowcount) % 6 := by
    rw [hwf_eq, posAt_ofNat]
  have hwl_eq : (s.A.windowlast + 1).tmod 6 =
      (((wfn + s.A.windowcount) % 6 : Nat) : Int) := by
    rw [tmod_six_nonneg _ (by omega)]
    have h2 := h.hAwlast
    rw [tmod_six_nonneg _ (by omega), Int.toNat_natCast, hposq] at h2
    omega
  have hqlen : (wfn + s.A.windowcount) % 6 < s.A.buffer.length := by
    rw [h.hAlen]
    exact hq6
  have hpkteq : mkPkt s.A.nextseqnum NOTINUSE m =
      packetFor (s.submitted ++ [m]) s.submitted.length := by
    rw [packetFor_snoc_self, h.hAnext]
  rw [hwl_eq]
  simp only [Int.toNat_natCast]
  refine ⟨?_, ?_, ?_, ?_, ?_, ?_, ?_, ?_, ?_, ?_, ?_, h.hBlen, h.hBwf, ?_, h.hB0,
    ?_, ?_, ?_, ?_, ?_, ?_, ?_, ?_, ?_, h.hgs, h.hgsKB, ?_, ?_, h.hgsPair⟩
  · show s.A.windowcount + 1 ≤ 6
    omega
  · show s.A.windowcount + 1 ≤ (s.submitted ++ [m]).length
    simp only [List.length_append, List.length_singleton]
    omega
  · show (s.A.buffer.set ((wfn + s.A.windowcount) % 6)
      { packet := mkPkt s.A.nextseqnum NOTINUSE m, acked := false }).length = 6
    rw [List.length_set]
    exact h.hAlen
  · exact h.hAwf0
  · exact h.hAwf6
  · show (s.A.nextseqnum + 1).tmod 12 = (((s.submitted ++ [m]).length % 12 : Nat) : Int)
    rw [h.hAnext, add_one_tmod_twelve]
    simp only [List.length_append, List.length_singleton]
    omega
  · show (-1 : Int) ≤ (((wfn + s.A.windowcount) % 6 : Nat) : Int)
    omega
  · show ((((wfn + s.A.windowcount) % 6 : Nat)) : Int) < 6
    omega
  · show ((((((wfn + s.A.windowcount) % 6 : Nat)) : Int) + 1).tmod 6).toNat =
      posAt s.A.windowfirst (s.A.windowcount + 1)
    rw [add_one_tmod_six, Int.toNat_natCast, hwf_eq, posAt_ofNat]
    omega
  · intro i hi
    simp only [baseF, Ssub]
    simp only [List.length_append, List.length_singleton]
    dsimp only at hi
    simp only [wEntry, hwf_eq, posAt_ofNat]
    rcases Nat.lt_or_ge i s.A.windowcount with hlt | hge
    · rw [getD_set_other _ _ _ _ _ (by omega),
        show s.submitted.length + 1 - (s.A.windowcount + 1) + i =
          s.submitted.length - s.A.windowcount + i by omega,
        packetFor_append _ _ _ (by omega)]
      have hw := h.hAwin i hlt
      simp only [baseF, wEntry, hwf_eq, posAt_ofNat] at hw
      exact hw
    · have hieq : i = s.A.windowcount := by omega
      subst hieq
      rw [getD_set_self _ _ _ _ hqlen]
      show mkPkt s.A.nextseqnum NOTINUSE m = _
      rw [hpkteq]
      refine congrArg _ ?_
      omega
  · intro i hi hack
    dsimp only at hi
    simp only [wEntry, hwf_eq, posAt_ofNat] at hack
    rcases Nat.lt_or_ge i s.A.windowcount with hlt | hge
    · rw [getD_set_other _ _ _ _ _ (by omega)] at hack
      have hk := h.hAackKB i hlt
      simp only [wEntry, hwf_eq, posAt_ofNat] at hk
      have hk2 := hk hack
      simp only [baseF, Ddel] at hk2 ⊢
      simp only [List.length_append, List.length_singleton]
      rw [show s.submitted.length + 1 - (s.A.windowcount + 1) + i =
        s.submitted.length - s.A.windowcount + i by omega]
      exact hk2
    · have hieq : i = s.A.windowcount := by omega
      subst hieq
      rw [getD_set_self _ _ _ _ hqlen] at hack
      exact absurd hack (by simp)
  · intro c hc hrec
    dsimp only at hrec ⊢
    have hs := h.hBslot c hc hrec
    simp only [Ddel, Ssub] at hs ⊢
    simp only [List.length_append, List.length_singleton]
    refine ⟨?_, by omega⟩
    rw [packetFor_append _ _ _ (by omega)]
    exact hs.1
  · show s.delivered = (s.submitted ++ [m]).take s.delivered.length
    rw [List.take_append_of_le_length (by omega)]
    exact h.hDel
  · show s.delivered.length ≤ (s.submitted ++ [m]).length
    simp only [List.length_append, List.length_singleton]
    omega
  · show (s.submitted ++ [m]).length - (s.A.windowcount + 1) ≤ s.delivered.length
    simp only [List.length_append, List.length_singleton]
    omega
  · refine forall₂_snoc ?_ _ _ ?_
    case refine_2 =>
      show mkPkt s.A.nextseqnum NOTINUSE m =
        packetFor (s.submitted ++ [m]) s.submitted.length
      exact hpkteq
    refine forall₂_imp_mem h.hjs ?_
    intro j hj q hq
    rw [hq, packetFor_append _ _ _ ?_]
    have := h.hjsS j hj
    simp only [Ssub] at this
    exact this
  · intro j hj
    simp only [Ssub]
    simp only [List.length_append, List.length_singleton]
    rcases List.mem_append.mp hj with hj1 | hj2
    · have := h.hjsS j hj1
      simp only [Ssub] at this
      omega
    · rw [List.mem_singleton] at hj2
      omega
  · intro j hj kk hkk
    rcases List.mem_append.mp hj with hj1 | hj2
    · exact h.hjsKB j hj1 kk hkk
    · rw [List.mem_singleton] at hj2
      subst hj2
      have := KB_lt_S s js gs h kk hkk
      simp only [Ssub] at this
      omega
  · intro j hj i hi hack
    dsimp only at hi
    simp only [wEntry, hwf_eq, posAt_ofNat] at hack
    simp only [baseF]
    simp only [List.length_append, List.length_singleton]
    rcases Nat.lt_or_ge i s.A.windowcount with hlt | hge
    · rw [getD_set_other _ _ _ _ _ (by omega)] at hack
      rcases List.mem_append.mp hj with hj1 | hj2
      · have ha := h.hjsAck j hj1 i hlt
        simp only [wEntry, hwf_eq, posAt_ofNat] at ha
        have ha2 := ha hack
        simp only [baseF] at ha2
        omega
      · rw [List.mem_singleton] at hj2
        subst hj2
        omega
    · have hieq : i = s.A.windowcount := by omega
      subst hieq
      rw [getD_set_self _ _ _ _ hqlen] at hack
      exact absurd hack (by simp)
  · intro j hj
    simp only [baseF]
    simp only [List.length_append, List.length_singleton]
    rcases List.mem_append.mp hj with hj1 | hj2
    · have := h.hjsBase j hj1
      simp only [baseF] at this
      omega
    · rw [List.mem_singleton] at hj2
      omega
  · refine pairwise_snoc h.hjsPair ?_
    intro a ha
    have := h.hjsS a ha
    simp only [Ssub] at this
    omega
  · intro g hg i hi hack
    dsimp only at hi
    simp only [wEntry, hwf_eq, posAt_ofNat] at hack
    simp only [baseF]
    simp only [List.length_append, List.length_singleton]
    rcases Nat.lt_or_ge i s.A.windowcount with hlt | hge
    · rw [getD_set_other _ _ _ _ _ (by omega)] at hack
      have ha := h.hgsAck g hg i hlt
      simp only [wEntry, hwf_eq, posAt_ofNat] at ha
      have ha2 := ha hack
      simp only [baseF] at ha2
      omega
    · have hieq : i = s.A.windowcount := by omega
      subst hieq
      rw [getD_set_self _ _ _ _ hqlen] at hack
      exact absurd hack (by simp)
  · intro g hg
    simp only [baseF]
    simp only [List.length_append, List.length_singleton]
    have := h.hgsBase g hg
    simp only [baseF] at this
    omega

theorem FInv_submit (s : FSys) (js gs : List Nat) (m : List Int) (h : FInv s js gs) :
    ∃ js', FInv (fstep s (FEv.submit m)) js' gs := by
  by_cases hacc : s.A.windowcount < 6
  · unfold fstep
    dsimp only
    unfold A_output
    rw [if_pos hacc, if_pos hacc]
    dsimp only
    by_cases hw1 : s.A.windowcount + 1 = 1
    · rw [if_pos hw1]
      dsimp only
      rw [show outPkts [AAction.toLayer3 (mkPkt s.A.nextseqnum NOTINUSE m),
        AAction.startTimer] = [mkPkt s.A.nextseqnum NOTINUSE m] from rfl]
      exact ⟨js ++ [s.submitted.length],
        FInv_submit_core s js gs m (mkPkt s.A.nextseqnum NOTINUSE m).seqnum true h hacc⟩
    · rw [if_neg hw1]
      dsimp only
      rw [show outPkts [AAction.toLayer3 (mkPkt s.A.nextseqnum NOTINUSE m)] =
        [mkPkt s.A.nextseqnum NOTINUSE m] from rfl]
      exact ⟨js ++ [s.submitted.length],
        FInv_submit_core s js gs m s.A.timer_seq s.A.timerOn h hacc⟩
  · refine ⟨js, ?_⟩
    unfold fstep
    dsimp only
    unfold A_output
    rw [if_neg hacc, if_neg hacc]
    dsimp only
    rw [show outPkts [AAction.incWindowFull] = [] from rfl, List.append_nil,
      List.append_nil]
    exact h

theorem B_input_out_window (t : BState) (p : Pkt) (hp : IsCorrupted p = false)
    (hoff : ¬ ((p.seqnum - t.windowfirst + 12).tmod 12 < 6)) :
    B_input t p = ({ buffer := t.buffer, windowfirst := t.windowfirst,
                     nextseqnum := (t.nextseqnum + 1).tmod 2 },
      [BAction.toLayer3 (mkPkt t.nextseqnum p.seqnum (List.replicate 20 48))]) := by
  unfold B_input
  rw [if_neg (show ¬ (IsCorrupted p = true) by simp [hp])]
  dsimp only
  rw [if_neg hoff]
  rfl

theorem B_input_in_window (t : BState) (p : Pkt) (hp : IsCorrupted p = false)
    (hoff : (p.seqnum - t.windowfirst + 12).tmod 12 < 6) :
    B_input t p =
      ({ buffer := (deliverLoop 6 (t.buffer.set ((p.seqnum - t.windowfirst + 12).tmod 12).toNat
            { packet := p, received := true }) t.windowfirst).1,
         windowfirst := (deliverLoop 6
            (t.buffer.set ((p.seqnum - t.windowfirst + 12).tmod 12).toNat
              { packet := p, received := true }) t.windowfirst).2.1,
         nextseqnum := (t.nextseqnum + 1).tmod 2 },
       (deliverLoop 6 (t.buffer.set ((p.seqnum - t.windowfirst + 12).tmod 12).toNat
           { packet := p, received := true }) t.windowfirst).2.2 ++
         [BAction.toLayer3 (mkPkt t.nextseqnum p.seqnum (List.replicate 20 48))]) := by
  unfold B_input
  rw [if_neg (show ¬ (IsCorrupted p = true) by simp [hp])]
  dsimp only
  rw [if_pos hoff]

theorem forall₂_cons_right {α β : Type} {R : α → β → Prop} {l1 : List α} {b : β}
    {l2 : List β} (h : List.Forall₂ R l1 (b :: l2)) :
    ∃ a t, l1 = a :: t ∧ R a b ∧ List.Forall₂ R t l2 := by
  cases h with
  | cons h1 h2 => exact ⟨_, _, rfl, h1, h2⟩

theorem FInv_dlvAB (s : FSys) (js gs : List Nat) (h : FInv s js gs) :
    ∃ js' gs', FInv (fstep s FEv.dlvAB) js' gs' := by
  cases hch : s.chanAB with
  | nil =>
    refine ⟨js, gs, ?_⟩
    unfold fstep
    rw [hch]
    exact h
  | cons p rest =>
    have hjs0 := h.hjs
    rw [hch] at hjs0
    obtain ⟨j₁, js₁, hjseq, hpj, hrest⟩ := forall₂_cons_right hjs0
    subst hjseq
    have hp : p = packetFor s.submitted j₁ := hpj
    subst hp
    have hW6 := h.hWle6
    have hbD := h.hbaseD
    simp only [baseF, Ddel] at hbD
    have hDSl := h.hDS
    simp only [Ddel, Ssub] at hDSl
    have hWSl := h.hWleS
    have hj1S : j₁ < s.submitted.length := by
      have := h.hjsS j₁ (List.mem_cons_self _ _)
      simpa [Ssub] using this
    have hj1up : j₁ ≤ s.delivered.length + 5 := by omega
    have hDj1 : s.delivered.length ≤ j₁ + 6 := by
      rcases Nat.eq_zero_or_pos s.delivered.length with h0 | h0
      · omega
      · have := h.hjsKB j₁ (List.mem_cons_self _ _) (s.delivered.length - 1)
          (Or.inl (by simp only [Ddel]; omega))
        omega
    set offn := (j₁ % 12 + 12 - s.delivered.length % 12) % 12 with hoffn_def
    have hoff_eq : ((packetFor s.submitted j₁).seqnum - s.B.windowfirst + 12).tmod 12
        = ((offn : Nat) : Int) := by
      rw [packetFor_seqnum, h.hBwf]
      exact offset_tmod_eq j₁ s.delivered.length
    unfold fstep
    rw [hch]
    dsimp only
    by_cases hfr : s.delivered.length ≤ j₁
    · -- fresh packet: offset inside the receive window
      have hoffn6 : offn < 6 := by omega
      have hj1eq : j₁ = s.delivered.length + offn := by omega
      rw [B_input_in_window s.B _ (packetFor_not_corrupted _ _) (by rw [hoff_eq]; omega)]
      dsimp only
      rw [hoff_eq]
      simp only [Int.toNat_natCast]
      rw [h.hBwf]
      set buf1 := s.B.buffer.set offn
        { packet := packetFor s.submitted j₁, received := true } with hbuf1
      have hlen1 : buf1.length = 6 := by
        rw [hbuf1, List.length_set]
        exact h.hBlen
      obtain ⟨r, hr_le, hr_rec, hr_stop, hlen2, hslot2, hclr2, hwf2, hpay2, hack2⟩ :=
        deliverLoop_spec 6 buf1 s.delivered.length hlen1 (countP_received_le buf1 hlen1)
      have hr6 : r ≤ 6 := le_trans hr_le (countP_received_le buf1 hlen1)
      have hbuf1_slot : ∀ c, c < 6 → (buf1.getD c dB).received = true →
          (buf1.getD c dB).packet = packetFor s.submitted (s.delivered.length + c) ∧
            s.delivered.length + c < s.submitted.length := by
        intro c hc hrec
        by_cases hce : c = offn
        · subst hce
          rw [hbuf1, getD_set_self _ _ _ _ (by rw [h.hBlen]; exact hc)]
          constructor
          · show packetFor s.submitted j₁ = _
            rw [hj1eq]
          · omega
        · have hne : offn ≠ c := fun he => hce he.symm
          rw [hbuf1, getD_set_other _ _ _ _ _ hne] at hrec
          rw [hbuf1, getD_set_other _ _ _ _ _ hne]
          have hb := h.hBslot c hc hrec
          simp only [Ddel, Ssub] at hb
          exact hb
      have hDrS : s.delivered.length + r ≤ s.submitted.length := by
        rcases Nat.eq_zero_or_pos r with h0 | h0
        · omega
        · have := (hbuf1_slot (r - 1) (by omega) (hr_rec (r - 1) (by omega))).2
          omega
      have hpay_eq : (List.range r).map (fun kk => (buf1.getD kk dB).packet.payload) =
          (List.range r).map (fun kk => s.submitted.getD (s.delivered.length + kk) []) := by
        refine List.map_congr_left ?_
        intro kk hkk
        rw [List.mem_range] at hkk
        rw [(hbuf1_slot kk (by omega) (hr_rec kk hkk)).1]
        rfl
      have hKBup : ∀ kk, KB s.B s.delivered.length kk →
          kk < s.delivered.length + r ∨ ∃ c, c < 6 ∧
            ((deliverLoop 6 buf1 (((s.delivered.length % 12 : Nat)) : Int)).1.getD c
              dB).received = true ∧ kk = s.delivered.length + r + c := by
        intro kk hkb
        have hkb2 : kk < s.delivered.length ∨ ∃ c, c < 6 ∧
            (s.B.buffer.getD c dB).received = true ∧ kk = s.delivered.length + c := hkb
        rcases hkb2 with hlt | ⟨c, hc6, hcrec, hkeq⟩
        · left
          omega
        · have hrec1 : (buf1.getD c dB).received = true := by
            by_cases hce : c = offn
            · subst hce
              rw [hbuf1, getD_set_self _ _ _ _ (by rw [h.hBlen]; exact hc6)]
            · rw [hbuf1, getD_set_other _ _ _ _ _ (fun he => hce he.symm)]
              exact hcrec
          rcases Nat.lt_or_ge c r with hcr | hcr
          · left
            omega
          · right
            refine ⟨c - r, by omega, ?_, by omega⟩
            rw [hslot2 (c - r) (by omega), show c - r + r = c by omega]
            exact hrec1
      have hKBsub : ∀ kk, (kk < s.delivered.length + r ∨ ∃ c, c < 6 ∧
            ((deliverLoop 6 buf1 (((s.delivered.length % 12 : Nat)) : Int)).1.getD c
              dB).received = true ∧ kk = s.delivered.length + r + c) →
          KB s.B s.delivered.length kk ∨ kk = j₁ := by
        intro kk hkk
        rcases hkk with hlt | ⟨c, hc6, hcrec, hkeq⟩
        · rcases Nat.lt_or_ge kk s.delivered.length with hkD | hkD
          · exact Or.inl (Or.inl hkD)
          · by_cases hce : kk - s.delivered.length = offn
            · right
              omega
            · left
              refine Or.inr ⟨kk - s.delivered.length, by omega, ?_, by omega⟩
              have hr1 := hr_rec (kk - s.delivered.length) (by omega)
              rw [hbuf1, getD_set_other _ _ _ _ _ (fun he => hce he.symm)] at hr1
              exact hr1
        · rcases Nat.lt_or_ge (c + r) 6 with hlt6 | hge6
          · have heq := hslot2 c hlt6
            rw [heq] at hcrec
            by_cases hce : c + r = offn
            · right
              omega
            · left
              refine Or.inr ⟨c + r, by omega, ?_, by omega⟩
              rw [hbuf1, getD_set_other _ _ _ _ _ (fun he => hce he.symm)] at hcrec
              exact hcrec
          · rw [hclr2 c hc6 hge6] at hcrec
            exact absurd hcrec (by simp)
      rw [hwf2]
      rw [payloadsOf_append, hpay2, hpay_eq,
        show payloadsOf [BAction.toLayer3 (mkPkt s.B.nextseqnum
          (packetFor s.submitted j₁).seqnum (List.replicate 20 48))] = [] from rfl,
        List.append_nil]
      rw [ackPkts_append, hack2, List.nil_append,
        show ackPkts [BAction.toLayer3 (mkPkt s.B.nextseqnum
          (packetFor s.submitted j₁).seqnum (List.replicate 20 48))] =
          [mkPkt s.B.nextseqnum (packetFor s.submitted j₁).seqnum (List.replicate 20 48)]
          from rfl]
      refine ⟨js₁, gs ++ [j₁], ?_⟩
      refine ⟨h.hWle6, h.hWleS, h.hAlen, h.hAwf0, h.hAwf6, h.hAnext, h.hAwl1, h.hAwl6,
        h.hAwlast, h.hAwin, ?_, hlen2, ?_, ?_, ?_, ?_, ?_, ?_, hrest, ?_, ?_, ?_, ?_, ?_,
        ?_, ?_, ?_, ?_, ?_⟩
      · intro i hi hack
        have hkb := h.hAackKB i hi hack
        have hup := hKBup _ hkb
        simp only [KB, Ddel, baseF, List.length_append, List.length_map, List.length_range]
        exact hup
      · simp only [List.length_append, List.length_map, List.length_range]
      · intro c hc hrec
        dsimp only at hrec
        simp only [Ddel, Ssub, List.length_append, List.length_map, List.length_range]
        rcases Nat.lt_or_ge (c + r) 6 with hlt6 | hge6
        · have heq := hslot2 c hlt6
          rw [heq] at hrec
          have hb := hbuf1_slot (c + r) (by omega) hrec
          refine ⟨?_, by omega⟩
          rw [heq, hb.1]
          exact congrArg _ (by omega)
        · rw [hclr2 c hc hge6] at hrec
          exact absurd hrec (by simp)
      · rcases Nat.lt_or_ge r 6 with h6 | h6
        · have heq := hslot2 0 (by omega)
          rw [Nat.zero_add] at heq
          have hres : ((deliverLoop 6 buf1 (((s.delivered.length % 12 : Nat)) : Int)).1.getD 0
              dB).received = false := by
            rw [heq]
            exact hr_stop h6
          exact hres
        · exact hclr2 0 (by omega) (by omega)
      · simp only [Ddel, List.length_append, List.length_map, List.length_range]
        rw [take_extend s.submitted r s.delivered.length hDrS]
        have hdel0 : s.delivered = s.submitted.take s.delivered.length := h.hDel
        rw [← hdel0]
      · simp only [Ddel, Ssub, List.length_append, List.length_map, List.length_range]
        omega
      · simp only [baseF, Ddel, List.length_append, List.length_map, List.length_range]
        omega
      · intro j hj
        exact h.hjsS j (List.mem_cons_of_mem _ hj)
      · intro j hj kk hkk
        simp only [KB, Ddel, List.length_append, List.length_map, List.length_range] at hkk
        rcases hKBsub kk hkk with hold | heq
        · exact h.hjsKB j (List.mem_cons_of_mem _ hj) kk hold
        · subst heq
          exact (List.pairwise_cons.mp h.hjsPair).1 j hj
      · intro j hj i hi hack
        exact h.hjsAck j (List.mem_cons_of_mem _ hj) i hi hack
      · intro j hj
        exact h.hjsBase j (List.mem_cons_of_mem _ hj)
      · exact (List.pairwise_cons.mp h.hjsPair).2
      · refine forall₂_snoc h.hgs j₁ _ ⟨?_, mkPkt_not_corrupted _ _ _⟩
        show (mkPkt s.B.nextseqnum (packetFor s.submitted j₁).seqnum
          (List.replicate 20 48)).acknum = ((j₁ % 12 : Nat) : Int)
        rfl
      · intro g hg
        simp only [KB, Ddel, List.length_append, List.length_map, List.length_range]
        rcases List.mem_append.mp hg with hg1 | hg2
        · exact hKBup g (h.hgsKB g hg1)
        · rw [List.mem_singleton] at hg2
          subst hg2
          rcases Nat.lt_or_ge offn r with hor | hor
          · left
            omega
          · right
            refine ⟨offn - r, by omega, ?_, by omega⟩
            rw [hslot2 (offn - r) (by omega), show offn - r + r = offn by omega, hbuf1,
              getD_set_self _ _ _ _ (by rw [h.hBlen]; exact hoffn6)]
      · intro g hg i hi hack
        rcases List.mem_append.mp hg with hg1 | hg2
        · exact h.hgsAck g hg1 i hi hack
        · rw [List.mem_singleton] at hg2
          subst hg2
          exact h.hjsKB g (List.mem_cons_self _ _) _ (h.hAackKB i hi hack)
      · intro g hg
        rcases List.mem_append.mp hg with hg1 | hg2
        · exact h.hgsBase g hg1
        · rw [List.mem_singleton] at hg2
          subst hg2
          exact h.hjsBase g (List.mem_cons_self _ _)
      · refine pairwise_snoc h.hgsPair ?_
        intro a ha
        exact h.hjsKB j₁ (List.mem_cons_self _ _) a (h.hgsKB a ha)
    · -- stale duplicate: offset lands outside the receive window
      rw [B_input_out_window s.B _ (packetFor_not_corrupted _ _) (by rw [hoff_eq]; omega)]
      dsimp only
      rw [show payloadsOf [BAction.toLayer3 (mkPkt s.B.nextseqnum
            (packetFor s.submitted j₁).seqnum (List.replicate 20 48))] = [] from rfl,
        List.append_nil,
        show ackPkts [BAction.toLayer3 (mkPkt s.B.nextseqnum
            (packetFor s.submitted j₁).seqnum (List.replicate 20 48))] =
          [mkPkt s.B.nextseqnum (packetFor s.submitted j₁).seqnum (List.replicate 20 48)]
          from rfl]
      refine ⟨js₁, gs ++ [j₁], ?_⟩
      refine ⟨h.hWle6, h.hWleS, h.hAlen, h.hAwf0, h.hAwf6, h.hAnext, h.hAwl1, h.hAwl6,
        h.hAwlast, h.hAwin, h.hAackKB, h.hBlen, h.hBwf, h.hBslot, h.hB0, h.hDel, h.hDS,
        h.hbaseD, hrest, ?_, ?_, ?_, ?_, ?_, ?_, ?_, ?_, ?_, ?_⟩
      · intro j hj
        exact h.hjsS j (List.mem_cons_of_mem _ hj)
      · intro j hj kk hkk
        exact h.hjsKB j (List.mem_cons_of_mem _ hj) kk hkk
      · intro j hj i hi hack
        exact h.hjsAck j (List.mem_cons_of_mem _ hj) i hi hack
      · intro j hj
        exact h.hjsBase j (List.mem_cons_of_mem _ hj)
      · exact (List.pairwise_cons.mp h.hjsPair).2
      · refine forall₂_snoc h.hgs j₁ _ ⟨?_, mkPkt_not_corrupted _ _ _⟩
        show (mkPkt s.B.nextseqnum (packetFor s.submitted j₁).seqnum
          (List.replicate 20 48)).acknum = ((j₁ % 12 : Nat) : Int)
        rfl
      · intro g hg
        rcases List.mem_append.mp hg with hg1 | hg2
        · exact h.hgsKB g hg1
        · rw [List.mem_singleton] at hg2
          subst hg2
          exact Or.inl (by simp only [Ddel]; omega)
      · intro g hg i hi hack
        rcases List.mem_append.mp hg with hg1 | hg2
        · exact h.hgsAck g hg1 i hi hack
        · rw [List.mem_singleton] at hg2
          subst hg2
          exact h.hjsKB g (List.mem_cons_self _ _) _ (h.hAackKB i hi hack)
      · intro g hg
        rcases List.mem_append.mp hg with hg1 | hg2
        · exact h.hgsBase g hg1
        · rw [List.mem_singleton] at hg2
          subst hg2
          exact h.hjsBase g (List.mem_cons_self _ _)
      · refine pairwise_snoc h.hgsPair ?_
        intro a ha
        exact h.hjsKB j₁ (List.mem_cons_self _ _) a (h.hgsKB a ha)

theorem A_input_spec (s : AState) (p : Pkt) (hc : IsCorrupted p = false)
    (hlen : s.buffer.length = 6) (hwf0 : 0 ≤ s.windowfirst) (hwf6 : s.windowfirst < 6) :
    ∃ (buf1 : List BufEntry) (k : Nat) (ts : Int) (tOn : Bool),
      k ≤ s.windowcount ∧
      (A_input s p).1 = { buffer := buf1,
                          windowfirst := (((s.windowfirst.toNat + k) % 6 : Nat) : Int),
                          windowlast := s.windowlast, windowcount := s.windowcount - k,
                          nextseqnum := s.nextseqnum, timer_seq := ts, timerOn := tOn } ∧
      buf1.length = 6 ∧
      (∀ j, (buf1.getD j dA).packet = (s.buffer.getD j dA).packet) ∧
      (∀ i, i < s.windowcount →
        (buf1.getD ((s.windowfirst.toNat + i) % 6) dA).acked = true →
        (s.buffer.getD ((s.windowfirst.toNat + i) % 6) dA).acked = true ∨
          (s.buffer.getD ((s.windowfirst.toNat + i) % 6) dA).packet.seqnum = p.acknum) ∧
      (∀ i, i < k → (buf1.getD ((s.windowfirst.toNat + i) % 6) dA).acked = true) ∧
      outPkts (A_input s p).2 = [] := by
  have hwf_eq : s.windowfirst = ((s.windowfirst.toNat : Nat) : Int) := by omega
  set wfn := s.windowfirst.toNat with hwfn_def
  have hwfn6 : wfn < 6 := by omega
  unfold A_input
  rw [if_neg (show ¬ (IsCorrupted p = true) by simp [hc])]
  dsimp only
  rw [hwf_eq]
  simp only [posAt_ofNat]
  cases hmi : firstIdx s.buffer ((wfn : Int)) s.windowcount
      (fun e => e.packet.seqnum == p.acknum && !e.acked) with
  | none =>
    dsimp only
    obtain ⟨k, hk, hsl, hkack, hkun⟩ := slideW_spec s.buffer s.windowcount wfn hwfn6
    rw [hsl]
    dsimp only
    have hd : ∀ i, i < s.windowcount → (s.buffer.getD ((wfn + i) % 6) dA).acked = true →
        (s.buffer.getD ((wfn + i) % 6) dA).acked = true ∨
          (s.buffer.getD ((wfn + i) % 6) dA).packet.seqnum = p.acknum :=
      fun i _ hack => Or.inl hack
    cases hbeq : p.acknum == s.timer_seq with
    | false =>
      rw [if_neg (show ¬(false = true) by simp)]
      dsimp only
      rcases Nat.eq_zero_or_pos (s.windowcount - k) with h0 | h0
      · rw [if_pos h0]
        exact ⟨s.buffer, k, _, _, hk, rfl, hlen, fun j => rfl, hd, hkack, rfl⟩
      · rw [if_neg (by omega)]
        exact ⟨s.buffer, k, _, _, hk, rfl, hlen, fun j => rfl, hd, hkack, rfl⟩
    | true =>
      rw [if_pos rfl]
      cases hfu : firstIdx s.buffer ((wfn : Int)) s.windowcount (fun e => !e.acked) with
      | some j =>
        dsimp only
        rcases Nat.eq_zero_or_pos (s.windowcount - k) with h0 | h0
        · rw [if_pos h0]
          exact ⟨s.buffer, k, _, _, hk, rfl, hlen, fun j => rfl, hd, hkack, rfl⟩
        · rw [if_neg (by omega)]
          exact ⟨s.buffer, k, _, _, hk, rfl, hlen, fun j => rfl, hd, hkack, rfl⟩
      | none =>
        dsimp only
        rcases Nat.eq_zero_or_pos (s.windowcount - k) with h0 | h0
        · rw [if_pos h0]
          exact ⟨s.buffer, k, _, _, hk, rfl, hlen, fun j => rfl, hd, hkack, rfl⟩
        · rw [if_neg (by omega)]
          exact ⟨s.buffer, k, _, _, hk, rfl, hlen, fun j => rfl, hd, hkack, rfl⟩
  | some i₀ =>
    dsimp only
    obtain ⟨hi₀, hp₀, hmin₀⟩ := firstIdx_some _ _ _ _ i₀ hmi
    simp only [wEntry, posAt_ofNat] at hp₀
    obtain ⟨hseq₀, hack₀⟩ := (timedPred_iff _ _).mp hp₀
    have hq6 : (wfn + i₀) % 6 < 6 := Nat.mod_lt _ (by omega)
    have hqlen : (wfn + i₀) % 6 < s.buffer.length := by omega
    set buf1 := s.buffer.set ((wfn + i₀) % 6)
      { packet := (s.buffer.getD ((wfn + i₀) % 6) dA).packet, acked := true } with hbuf1_def
    have hlen1 : buf1.length = 6 := by
      rw [hbuf1_def, List.length_set]
      exact hlen
    have hpkt : ∀ j : Nat, (buf1.getD j dA).packet = (s.buffer.getD j dA).packet := by
      intro j
      rw [hbuf1_def]
      exact mark_packet s.buffer _ hqlen j
    have hackoth : ∀ j : Nat, (wfn + i₀) % 6 ≠ j →
        (buf1.getD j dA).acked = (s.buffer.getD j dA).acked := by
      intro j hne
      rw [hbuf1_def]
      exact mark_acked_other s.buffer _ j hne
    have hd : ∀ i, i < s.windowcount → (buf1.getD ((wfn + i) % 6) dA).acked = true →
        (s.buffer.getD ((wfn + i) % 6) dA).acked = true ∨
          (s.buffer.getD ((wfn + i) % 6) dA).packet.seqnum = p.acknum := by
      intro i hi hack
      by_cases hii : (wfn + i₀) % 6 = (wfn + i) % 6
      · right
        rw [← hii]
        exact hseq₀
      · left
        rw [hackoth _ hii] at hack
        exact hack
    obtain ⟨k, hk, hsl, hkack, hkun⟩ := slideW_spec buf1 s.windowcount wfn hwfn6
    rw [hsl]
    dsimp only
    cases hbeq : p.acknum == s.timer_seq with
    | false =>
      rw [if_neg (show ¬(false = true) by simp)]
      dsimp only
      rcases Nat.eq_zero_or_pos (s.windowcount - k) with h0 | h0
      · rw [if_pos h0]
        exact ⟨buf1, k, _, _, hk, rfl, hlen1, hpkt, hd, hkack, rfl⟩
      · rw [if_neg (by omega)]
        exact ⟨buf1, k, _, _, hk, rfl, hlen1, hpkt, hd, hkack, rfl⟩
    | true =>
      rw [if_pos rfl]
      cases hfu : firstIdx buf1 ((wfn : Int)) s.windowcount (fun e => !e.acked) with
      | some j =>
        dsimp only
        rcases Nat.eq_zero_or_pos (s.windowcount - k) with h0 | h0
        · rw [if_pos h0]
          exact ⟨buf1, k, _, _, hk, rfl, hlen1, hpkt, hd, hkack, rfl⟩
        · rw [if_neg (by omega)]
          exact ⟨buf1, k, _, _, hk, rfl, hlen1, hpkt, hd, hkack, rfl⟩
      | none =>
        dsimp only
        rcases Nat.eq_zero_or_pos (s.windowcount - k) with h0 | h0
        · rw [if_pos h0]
          exact ⟨buf1, k, _, _, hk, rfl, hlen1, hpkt, hd, hkack, rfl⟩
        · rw [if_neg (by omega)]
          exact ⟨buf1, k, _, _, hk, rfl, hlen1, hpkt, hd, hkack, rfl⟩

theorem FInv_dlvBA (s : FSys) (js gs : List Nat) (h : FInv s js gs) :
    ∃ gs', FInv (fstep s FEv.dlvBA) js gs' := by
  cases hch : s.chanBA with
  | nil =>
    refine ⟨gs, ?_⟩
    unfold fstep
    rw [hch]
    exact h
  | cons q restBA =>
    have hgs0 := h.hgs
    rw [hch] at hgs0
    obtain ⟨g, gs₁, hgseq, hgq, hgrest⟩ := forall₂_cons_right hgs0
    subst hgseq
    obtain ⟨hqack, hqok⟩ := hgq
    obtain ⟨buf1, k, ts, tOn, hk, hA1, hlen1, hpkt, hdich, hcross, hnoout⟩ :=
      A_input_spec s.A q hqok h.hAlen h.hAwf0 h.hAwf6
    unfold fstep
    rw [hch]
    dsimp only
    rw [hnoout, List.append_nil, hA1]
    set wfn := s.A.windowfirst.toNat with hwfn_def
    have hwf_eq : s.A.windowfirst = ((wfn : Nat) : Int) := by
      have := h.hAwf0
      have := h.hAwf6
      omega
    have hW6 := h.hWle6
    have hWS := h.hWleS
    have hbD := h.hbaseD
    simp only [baseF, Ddel] at hbD
    have hDSl := h.hDS
    simp only [Ddel, Ssub] at hDSl
    have hgKB := h.hgsKB g (List.mem_cons_self _ _)
    simp only [Ddel] at hgKB
    have hgS : g < s.submitted.length := by
      have := KB_lt_S s _ _ h g (h.hgsKB g (List.mem_cons_self _ _))
      simpa [Ssub] using this
    have hgD5 : g ≤ s.delivered.length + 5 := by
      have hgKB2 : g < s.delivered.length ∨ ∃ c, c < 6 ∧
          (s.B.buffer.getD c dB).received = true ∧ g = s.delivered.length + c := hgKB
      rcases hgKB2 with h1 | ⟨c, hc6, _, hceq⟩
      · omega
      · omega
    have hgbase := h.hgsBase g (List.mem_cons_self _ _)
    simp only [baseF] at hgbase
    have hAwin' := h.hAwin
    simp only [wEntry, hwf_eq, posAt_ofNat, baseF] at hAwin'
    have hAackKB' := h.hAackKB
    simp only [wEntry, hwf_eq, posAt_ofNat, baseF, Ddel] at hAackKB'
    have hjsAck' := h.hjsAck
    simp only [wEntry, hwf_eq, posAt_ofNat, baseF] at hjsAck'
    have hgsAck' := h.hgsAck
    simp only [wEntry, hwf_eq, posAt_ofNat, baseF] at hgsAck'
    have hmatch : ∀ i, i < s.A.windowcount →
        (s.A.buffer.getD ((wfn + i) % 6) dA).packet.seqnum = q.acknum →
        s.submitted.length - s.A.windowcount + i = g := by
      intro i hi hsq
      have h1 : (s.A.buffer.getD ((wfn + i) % 6) dA).packet.seqnum =
          ((((s.submitted.length - s.A.windowcount + i) % 12 : Nat)) : Int) := by
        rw [hAwin' i hi]
        exact packetFor_seqnum _ _
      have h2 : ((((s.submitted.length - s.A.windowcount + i) % 12 : Nat)) : Int) =
          (((g % 12 : Nat)) : Int) := by
        rw [← h1, hsq, hqack]
      omega
    have hcaseG : ∀ i, i < s.A.windowcount →
        (buf1.getD ((wfn + i) % 6) dA).acked = true →
        (s.A.buffer.getD ((wfn + i) % 6) dA).acked = true ∨
          s.submitted.length - s.A.windowcount + i = g := by
      intro i hi hack
      rcases hdich i hi hack with hold | hsq
      · exact Or.inl hold
      · exact Or.inr (hmatch i hi hsq)
    have hackedKB : ∀ i, i < s.A.windowcount →
        (buf1.getD ((wfn + i) % 6) dA).acked = true →
        KB s.B s.delivered.length (s.submitted.length - s.A.windowcount + i) := by
      intro i hi hack
      rcases hcaseG i hi hack with hold | heq
      · exact hAackKB' i hi hold
      · rw [heq]
        exact hgKB
    have hbase'D : s.submitted.length - s.A.windowcount + k ≤ s.delivered.length := by
      by_contra hcon
      have hicr : s.delivered.length - (s.submitted.length - s.A.windowcount) < k := by omega
      have hi_cross := hcross (s.delivered.length - (s.submitted.length - s.A.windowcount))
        hicr
      have hkb := hackedKB (s.delivered.length - (s.submitted.length - s.A.windowcount))
        (by omega) hi_cross
      rw [show s.submitted.length - s.A.windowcount +
          (s.delivered.length - (s.submitted.length - s.A.windowcount)) =
          s.delivered.length by omega] at hkb
      have hkb2 : s.delivered.length < s.delivered.length ∨ ∃ c, c < 6 ∧
          (s.B.buffer.getD c dB).received = true ∧
          s.delivered.length = s.delivered.length + c := hkb
      rcases hkb2 with h1 | ⟨c, hc6, hrec, hceq⟩
      · omega
      · have hc0 : c = 0 := by omega
        subst hc0
        rw [h.hB0] at hrec
        exact absurd hrec (by simp)
    have hcrossDich : 0 < k →
        (s.A.buffer.getD ((wfn + (k - 1)) % 6) dA).acked = true ∨
          s.submitted.length - s.A.windowcount + (k - 1) = g := by
      intro hkpos
      exact hcaseG (k - 1) (by omega) (hcross (k - 1) (by omega))
    refine ⟨gs₁, ?_⟩
    refine ⟨?_, ?_, hlen1, ?_, ?_, h.hAnext, h.hAwl1, h.hAwl6, ?_, ?_, ?_, h.hBlen,
      h.hBwf, h.hBslot, h.hB0, h.hDel, h.hDS, ?_, h.hjs, h.hjsS, h.hjsKB, ?_, ?_,
      h.hjsPair, hgrest, ?_, ?_, ?_, ?_⟩
    · show s.A.windowcount - k ≤ 6
      omega
    · show s.A.windowcount - k ≤ s.submitted.length
      omega
    · show (0 : Int) ≤ (((wfn + k) % 6 : Nat) : Int)
      omega
    · show ((((wfn + k) % 6 : Nat)) : Int) < 6
      have : (wfn + k) % 6 < 6 := Nat.mod_lt _ (by omega)
      omega
    · show ((s.A.windowlast + 1).tmod 6).toNat =
        posAt ((((wfn + k) % 6 : Nat)) : Int) (s.A.windowcount - k)
      have h9 := h.hAwlast
      rw [hwf_eq, posAt_ofNat] at h9
      rw [posAt_ofNat, h9]
      omega
    · intro i hi
      dsimp only at hi
      simp only [wEntry, posAt_ofNat, baseF]
      rw [show ((wfn + k) % 6 + i) % 6 = (wfn + (k + i)) % 6 by omega, hpkt,
        hAwin' (k + i) (by omega)]
      exact congrArg _ (by omega)
    · intro i hi hack
      dsimp only at hi
      simp only [wEntry, posAt_ofNat] at hack
      rw [show ((wfn + k) % 6 + i) % 6 = (wfn + (k + i)) % 6 by omega] at hack
      have hkb := hackedKB (k + i) (by omega) hack
      simp only [Ddel, baseF]
      rw [show s.submitted.length - (s.A.windowcount - k) + i =
        s.submitted.length - s.A.windowcount + (k + i) by omega]
      exact hkb
    · show baseF _ ≤ Ddel _
      simp only [baseF, Ddel]
      omega
    · intro j hj i hi hack
      dsimp only at hi
      simp only [wEntry, posAt_ofNat] at hack
      rw [show ((wfn + k) % 6 + i) % 6 = (wfn + (k + i)) % 6 by omega] at hack
      simp only [baseF]
      rcases hcaseG (k + i) (by omega) hack with hold | heq
      · have := hjsAck' j hj (k + i) (by omega) hold
        omega
      · have hgj : g ≤ j + 5 := h.hjsKB j hj g (h.hgsKB g (List.mem_cons_self _ _))
        omega
    · intro j hj
      simp only [baseF]
      have hold := h.hjsBase j hj
      simp only [baseF] at hold
      rcases Nat.eq_zero_or_pos k with h0 | h0
      · omega
      · rcases hcrossDich h0 with hacked | heq
        · have := hjsAck' j hj (k - 1) (by omega) hacked
          omega
        · have hgj : g ≤ j + 5 := h.hjsKB j hj g (h.hgsKB g (List.mem_cons_self _ _))
          omega
    · intro g' hg'
      exact h.hgsKB g' (List.mem_cons_of_mem _ hg')
    · intro g' hg' i hi hack
      dsimp only at hi
      simp only [wEntry, posAt_ofNat] at hack
      rw [show ((wfn + k) % 6 + i) % 6 = (wfn + (k + i)) % 6 by omega] at hack
      simp only [baseF]
      rcases hcaseG (k + i) (by omega) hack with hold | heq
      · have := hgsAck' g' (List.mem_cons_of_mem _ hg') (k + i) (by omega) hold
        omega
      · have hgg : g ≤ g' + 5 := (List.pairwise_cons.mp h.hgsPair).1 g' hg'
        omega
    · intro g' hg'
      simp only [baseF]
      have hold := h.hgsBase g' (List.mem_cons_of_mem _ hg')
      simp only [baseF] at hold
      rcases Nat.eq_zero_or_pos k with h0 | h0
      · omega
      · rcases hcrossDich h0 with hacked | heq
        · have := hgsAck' g' (List.mem_cons_of_mem _ hg') (k - 1) (by omega) hacked
          omega
        · have hgg : g ≤ g' + 5 := (List.pairwise_cons.mp h.hgsPair).1 g' hg'
          omega
    · exact (List.pairwise_cons.mp h.hgsPair).2

theorem FInv_step (s : FSys) (js gs : List Nat) (h : FInv s js gs) (ev : FEv) :
    ∃ js' gs', FInv (fstep s ev) js' gs' := by
  cases ev with
  | submit m =>
    obtain ⟨js', h'⟩ := FInv_submit s js gs m h
    exact ⟨js', gs, h'⟩
  | dlvAB => exact FInv_dlvAB s js gs h
  | dropAB => exact ⟨js.tail, gs, FInv_dropAB s js gs h⟩
  | corrAB p =>
    rcases fstep_corrAB s p with he | he
    · rw [he]
      exact ⟨js.tail, gs, FInv_dropAB s js gs h⟩
    · rw [he]
      exact ⟨js, gs, h⟩
  | dlvBA =>
    obtain ⟨gs', h'⟩ := FInv_dlvBA s js gs h
    exact ⟨js, gs', h'⟩
  | dropBA => exact ⟨js, gs.tail, FInv_dropBA s js gs h⟩
  | corrBA p =>
    rcases fstep_corrBA s p with he | he
    · rw [he]
      exact ⟨js, gs.tail, FInv_dropBA s js gs h⟩
    · rw [he]
      exact ⟨js, gs, h⟩
  | timeoutA =>
    obtain ⟨js', h'⟩ := FInv_timeoutA s js gs h
    exact ⟨js', gs, h'⟩

theorem FInv_run (evs : List FEv) : ∃ js gs, FInv (runF evs) js gs := by
  suffices hgen : ∀ (l : List FEv) (s : FSys) (js gs : List Nat), FInv s js gs →
      ∃ js' gs', FInv (l.foldl fstep s) js' gs' by
    exact hgen evs initF [] [] FInv_init
  intro l
  induction l with
  | nil => exact fun s js gs h => ⟨js, gs, h⟩
  | cons ev t ih =>
    intro s js gs h
    obtain ⟨js', gs', h'⟩ := FInv_step s js gs h ev
    exact ih (fstep s ev) js' gs' h'

/-- **C1 (counterexample to the claim as stated)**: with arrivals allowed in
any order including duplicates, exactly-once delivery fails.  In the liberal
model every arrival of `cexTrace` is a genuine previously-sent packet, yet
after the receive window wraps, the stale duplicate of packet 0 (offset
`(0 - 7 + 12) % 12 = 5` puts it back inside the window) is re-buffered and
re-delivered: message 0 is submitted once but delivered twice. -/
theorem C1_duplicate_delivery_counterexample :
    (runL cexTrace).delivered.count (cexMsg 0) = 2 ∧
    (runL cexTrace).submitted.count (cexMsg 0) = 1 := by
  decide

/-- **C1 (amended — FIFO channels)**: under the channel contract documented
in `sr.c` ("packets will be delivered in the order in which they were sent
(although some can be lost)") — each direction a FIFO queue whose events
deliver, lose, or corrupt the oldest in-flight packet — after any event
sequence the payloads delivered to B's application layer are exactly an
initial segment of the messages submitted at A: no gap, no reordering, no
duplicate delivery. -/
theorem C1_fifo_delivered_initial_segment (evs : List FEv) :
    (runF evs).delivered = (runF evs).submitted.take (runF evs).delivered.length := by
  obtain ⟨js, gs, h⟩ := FInv_run evs
  exact h.hDel
